import Mathlib

/-!
# Verification of the `life-rs` simulation core (`src/main.rs`)

A shallow embedding of the program.  The grid is a `List (List Cell)` mirroring
`Vec<Vec<Cell>>`; an index-out-of-bounds panic is modelled by `Option.none`.
The `i16` arithmetic of the neighbour-index computation is modelled exactly:
casts wrap two's-complement, `%` truncates toward zero, and `+` wraps on
overflow (the behaviour of release builds; debug builds would abort at the
same inputs, so either way the program fails there).
-/

set_option maxRecDepth 10000

namespace LifeRs

/-- Cell liveness, from `enum CellState { ALIVE, DEAD }`. -/
inductive CellState
  | ALIVE
  | DEAD
deriving DecidableEq

/-- A grid cell, from `struct Cell { old_state, state }`. -/
structure Cell where
  old_state : CellState
  state : CellState
deriving DecidableEq

/-- `Vec<Vec<Cell>>`. -/
abbrev Grid := List (List Cell)

/-- `struct Simulation`.  The input channel `input_rx` is modelled by passing
the drained event lists to the loop functions explicitly. -/
structure Simulation where
  running : Bool
  term_width : Nat
  term_height : Nat
  cells : Grid
deriving DecidableEq

/-- One cursor-addressed character write, `print!("{}{}", Goto(x, y), ch)`. -/
structure Write where
  x : Nat
  y : Nat
  ch : Char
deriving DecidableEq

/-- `enum SimulationEvent { QUIT, PLAYPAUSE, DRAW(u16, u16) }`. -/
inductive SimulationEvent
  | QUIT
  | PLAYPAUSE
  | DRAW (x y : Nat)
deriving DecidableEq

/-- Two's-complement reduction into the `i16` range, the meaning of `as i16`
on `u16`/`usize` values and of wrapping `i16` overflow. -/
def wrap16 (n : Int) : Int := (n + 32768) % 65536 - 32768

/-- Rust `%` on `i16`: remainder truncated toward zero.  (At the only operand
pair where Rust's `%` could overflow, `(-32768) % (-1)`, `Int.tmod` already
yields the wrapped result `0`.) -/
def i16rem (a n : Int) : Int := Int.tmod a n

/-- Rust `+` on `i16`, wrapping on overflow. -/
def i16add (a b : Int) : Int := wrap16 (a + b)

/-- `ModuloSignedExt::modulo` instantiated at `i16`: `(self % n + n) % n`. -/
def modulo (a n : Int) : Int := i16rem (i16add (i16rem a n) n) n

/-- `as usize` applied to an `i16` value: sign extension, then reinterpretation
as an unsigned 64-bit integer. -/
def i16toUsize (a : Int) : Nat := (a % ((2 : Int) ^ 64)).toNat

/-- The row (resp. column) index of the neighbour at offset `d` of index `i`
on an axis of size `dim`, exactly as `tick` computes it:
`((i as i16) + d).modulo(dim as i16) as usize`. -/
def nbrIdx (dim i : Nat) (d : Int) : Nat :=
  i16toUsize (modulo (i16add (wrap16 i) d) (wrap16 dim))

/-- `u16` subtraction of `1`, wrapping (the `x - 1` / `y - 1` of the `DRAW`
handler, with `x y : u16`). -/
def u16sub1 (a : Nat) : Nat := (a + 65535) % 65536

/-- `self.cells[i][j]`; `none` models the index-out-of-bounds panic. -/
def getCell (g : Grid) (i j : Nat) : Option Cell :=
  (g.get? i).bind fun row => row.get? j

/-- Update the element at one position of a list, leaving the list unchanged
when the index is out of range. -/
def modifyNth (f : α → α) : Nat → List α → List α
  | _, [] => []
  | 0, a :: l => f a :: l
  | n + 1, a :: l => a :: modifyNth f n l

/-- The in-place store `self.cells[i][j] = ...` (in the source it is only ever
reached after the same index was read successfully). -/
def upd2 (g : Grid) (i j : Nat) (f : Cell → Cell) : Grid :=
  modifyNth (fun row => modifyNth f j row) i g

/-- One conditional increment of `tick`'s neighbour loop:
`if self.cells[r][c].old_state == CellState::ALIVE { neighbors += 1 }`. -/
def oldAliveInd (g : Grid) (i j : Nat) : Option Nat :=
  (getCell g i j).map fun c => if c.old_state = CellState.ALIVE then 1 else 0

/-- The neighbour count computed for cell `(i, j)` in `tick`: eight reads of
`old_state` at the wrapped positions, in source order. -/
def countNeighbors (H W : Nat) (g : Grid) (i j : Nat) : Option Nat := do
  let n1 ← oldAliveInd g (nbrIdx H i (-1)) (nbrIdx W j (-1))
  let n2 ← oldAliveInd g (nbrIdx H i (-1)) j
  let n3 ← oldAliveInd g (nbrIdx H i (-1)) (nbrIdx W j 1)
  let n4 ← oldAliveInd g i (nbrIdx W j (-1))
  let n5 ← oldAliveInd g i (nbrIdx W j 1)
  let n6 ← oldAliveInd g (nbrIdx H i 1) (nbrIdx W j (-1))
  let n7 ← oldAliveInd g (nbrIdx H i 1) j
  let n8 ← oldAliveInd g (nbrIdx H i 1) (nbrIdx W j 1)
  return n1 + n2 + n3 + n4 + n5 + n6 + n7 + n8

/-- The body of `tick`'s main double loop for one cell `(i, j)`: count the
neighbours, then apply the rule branches, updating the cell in place and
emitting a write when the state changes. -/
def tickCell (H W : Nat) (acc : Grid × List Write) (i j : Nat) :
    Option (Grid × List Write) := do
  let (g, ws) := acc
  let n ← countNeighbors H W g i j
  let c ← getCell g i j
  if c.state = CellState.ALIVE ∧ n < 2 then
    return (upd2 g i j (fun c0 => { c0 with state := CellState.DEAD }),
            ws ++ [⟨j + 1, i + 1, (' ')⟩])
  else if c.state = CellState.ALIVE ∧ 3 < n then
    return (upd2 g i j (fun c0 => { c0 with state := CellState.DEAD }),
            ws ++ [⟨j + 1, i + 1, (' ')⟩])
  else if c.state = CellState.DEAD ∧ n = 3 then
    return (upd2 g i j (fun c0 => { c0 with state := CellState.ALIVE }),
            ws ++ [⟨j + 1, i + 1, ('o')⟩])
  else
    return (g, ws)

/-- `for k in lo..lo+n { ... }` over a fallible body: apply `f` to
`lo, lo+1, ..., lo+n-1` in order, stopping at the first failure. -/
def loopFrom (f : Nat → α → Option α) : Nat → Nat → α → Option α
  | _, 0, a => some a
  | lo, n + 1, a => (f lo a).bind fun a2 => loopFrom f (lo + 1) n a2

/-- `for k in 0..n { ... }`. -/
def loop0 (f : Nat → α → Option α) (n : Nat) (a : α) : Option α :=
  loopFrom f 0 n a

/-- The snapshot loop of `tick`: copy every cell's `state` into `old_state`.
(The source iterates over all `(i, j)` with `i < H`, `j < W` and the grid
always has exactly those dimensions; mapping over all cells is the same
assignment.) -/
def snapshot (g : Grid) : Grid :=
  g.map fun row => row.map fun c => { c with old_state := c.state }

/-- `Simulation::tick`, returning the updated simulation together with the
list of character writes it printed, or `none` if it panics. -/
def tick (s : Simulation) : Option (Simulation × List Write) :=
  (loop0
      (fun i acc =>
        loop0 (fun j acc2 => tickCell s.term_height s.term_width acc2 i j)
          s.term_width acc)
      s.term_height (snapshot s.cells, ([] : List Write))).map
    fun p => ({ s with cells := p.1 }, p.2)

/-- The `SimulationEvent::DRAW(x, y)` arm of `Simulation::run`: toggle the
cell at `(y-1, x-1)` and print the matching glyph at `(x, y)`. -/
def applyDraw (s : Simulation) (x y : Nat) : Option (Simulation × Write) := do
  let c ← getCell s.cells (u16sub1 y) (u16sub1 x)
  if c.state = CellState.DEAD then
    return ({ s with
                cells := upd2 s.cells (u16sub1 y) (u16sub1 x)
                  (fun c0 => { c0 with state := CellState.ALIVE }) },
            ⟨x, y, ('o')⟩)
  else
    return ({ s with
                cells := upd2 s.cells (u16sub1 y) (u16sub1 x)
                  (fun c0 => { c0 with state := CellState.DEAD }) },
            ⟨x, y, (' ')⟩)

/-- The command-draining `for event in self.input_rx.try_iter()` loop of one
iteration of `Simulation::run`: apply the pending events in order; a `QUIT`
stops processing immediately (the source `return`s out of `run`), reported
here as the `Bool` component. -/
def drain (s : Simulation) : List SimulationEvent →
    Option (Simulation × List Write × Bool)
  | [] => some (s, [], false)
  | SimulationEvent.QUIT :: _ => some (s, [], true)
  | SimulationEvent.PLAYPAUSE :: rest => drain { s with running := !s.running } rest
  | SimulationEvent.DRAW x y :: rest => do
      let (s1, w) ← applyDraw s x y
      let (s2, ws, q) ← drain s1 rest
      return (s2, w :: ws, q)

/-- One iteration of the `loop` in `Simulation::run`: a generation step when
`running`, then drain the pending events. -/
def loopIter (s : Simulation) (evts : List SimulationEvent) :
    Option (Simulation × List Write × Bool) := do
  let (s1, ws1) ←
    if s.running then tick s
    else pure (s, ([] : List Write))
  let (s2, ws2, q) ← drain s1 evts
  return (s2, ws1 ++ ws2, q)

/-- `Simulation::run`, driven by the finite sequence of event batches the
channel delivers, one batch per loop iteration; the loop exits when a batch
contains `QUIT`. -/
def runBatches (s : Simulation) : List (List SimulationEvent) →
    Option (Simulation × List Write)
  | [] => some (s, [])
  | evts :: rest => do
      let (s1, ws, q) ← loopIter s evts
      if q then
        return (s1, ws)
      else do
        let (s2, ws2) ← runBatches s1 rest
        return (s2, ws ++ ws2)

/-- `Simulation::new`: an `height × width` grid of dead cells, paused. -/
def initSim (width height : Nat) : Simulation :=
  { running := false
    term_width := width
    term_height := height
    cells := List.replicate height (List.replicate width ⟨CellState.DEAD, CellState.DEAD⟩) }

/-- Iterate `tick` a number of times. -/
def tickIter : Nat → Simulation → Option Simulation
  | 0, s => some s
  | n + 1, s => (tick s).bind fun p => tickIter n p.1

/- ### Specification-side functions (the pure reading of the algorithm) -/

/-- The `state` of cell `(i, j)`, defaulting to `DEAD` out of range. -/
def stateAt (g : Grid) (i j : Nat) : CellState :=
  match getCell g i j with
  | some c => c.state
  | none => CellState.DEAD

/-- Numeric indicator of a live state. -/
def ind (s : CellState) : Nat := if s = CellState.ALIVE then 1 else 0

/-- Live-neighbour count of `(i, j)` read from the prior generation `g`,
at the eight positions `tick` addresses. -/
def liveNbrs (H W : Nat) (g : Grid) (i j : Nat) : Nat :=
  ind (stateAt g (nbrIdx H i (-1)) (nbrIdx W j (-1))) +
  ind (stateAt g (nbrIdx H i (-1)) j) +
  ind (stateAt g (nbrIdx H i (-1)) (nbrIdx W j 1)) +
  ind (stateAt g i (nbrIdx W j (-1))) +
  ind (stateAt g i (nbrIdx W j 1)) +
  ind (stateAt g (nbrIdx H i 1) (nbrIdx W j (-1))) +
  ind (stateAt g (nbrIdx H i 1) j) +
  ind (stateAt g (nbrIdx H i 1) (nbrIdx W j 1))

/-- The standard Life transition rule as the specification states it:
underpopulation and overpopulation kill, exactly three neighbours give birth,
anything else leaves the state unchanged. -/
def lifeRule (s : CellState) (n : Nat) : CellState :=
  if s = CellState.ALIVE ∧ n < 2 then CellState.DEAD
  else if s = CellState.ALIVE ∧ 3 < n then CellState.DEAD
  else if s = CellState.DEAD ∧ n = 3 then CellState.ALIVE
  else s

/-- The glyph drawn for a state. -/
def glyph (s : CellState) : Char := if s = CellState.ALIVE then ('o') else (' ')

/-- The next state of cell `(i, j)` of grid `g`. -/
def nextState (H W : Nat) (g : Grid) (i j : Nat) : CellState :=
  lifeRule (stateAt g i j) (liveNbrs H W g i j)

/-- The write a generation step emits for cell `(i, j)`, if any: one glyph at
the cell's terminal position exactly when the state changes. -/
def writeFor (H W : Nat) (g : Grid) (i j : Nat) : Option Write :=
  if nextState H W g i j = stateAt g i j then none
  else some ⟨j + 1, i + 1, glyph (nextState H W g i j)⟩

/-- The writes of a generation step for row `i`, columns `0..j`. -/
def rowWrites (H W : Nat) (g : Grid) (i j : Nat) : List Write :=
  (List.range j).filterMap fun q => writeFor H W g i q

/-- The writes of a generation step for rows `0..i` plus columns `0..j` of
row `i`, in emission order. -/
def writesUpTo (H W : Nat) (g : Grid) (i j : Nat) : List Write :=
  ((List.range i).map fun p => rowWrites H W g p W).flatten ++ rowWrites H W g i j

/-- All writes of one generation step on grid `g`, in emission order. -/
def writesSpec (H W : Nat) (g : Grid) : List Write :=
  ((List.range H).map fun p => rowWrites H W g p W).flatten

/-- The number of cells a generation step changes. -/
def countChanged (H W : Nat) (g : Grid) : Nat :=
  (((List.range H).map fun i =>
      ((List.range W).filter fun j => nextState H W g i j ≠ stateAt g i j).length)).sum

/-- Build a grid from a cell-valued function. -/
def mkGrid (H W : Nat) (f : Nat → Nat → Cell) : Grid :=
  (List.range H).map fun i => (List.range W).map fun j => f i j

/-- A simulation around a grid built from old/current state functions. -/
def mkSim (H W : Nat) (fo fc : Nat → Nat → CellState) : Simulation :=
  { running := false
    term_width := W
    term_height := H
    cells := mkGrid H W fun i j => ⟨fo i j, fc i j⟩ }

/-- A product-shaped pattern: alive exactly on `rows × cols`. -/
def prodPat (rows cols : Nat → Prop) [DecidablePred rows] [DecidablePred cols]
    (i j : Nat) : CellState :=
  if rows i ∧ cols j then CellState.ALIVE else CellState.DEAD

/-- Horizontal blinker centred at `(r, c)`. -/
def blinkH (r c : Nat) : Nat → Nat → CellState :=
  prodPat (fun i => i = r) (fun j => j = c - 1 ∨ j = c ∨ j = c + 1)

/-- Vertical blinker centred at `(r, c)`. -/
def blinkV (r c : Nat) : Nat → Nat → CellState :=
  prodPat (fun i => i = r - 1 ∨ i = r ∨ i = r + 1) (fun j => j = c)

/-- The 2×2 block still life with top-left corner `(r, c)`. -/
def blockPat (r c : Nat) : Nat → Nat → CellState :=
  prodPat (fun i => i = r ∨ i = r + 1) (fun j => j = c ∨ j = c + 1)

/-- The all-dead state function. -/
def deadPat : Nat → Nat → CellState := fun _ _ => CellState.DEAD

/-- The terminal screen: the last character written at each `(x, y)`, `none`
where nothing was written yet (blank). -/
def Screen := Nat → Nat → Option Char

/-- The blank screen. -/
def blankScreen : Screen := fun _ _ => none

/-- Apply one character write to the screen. -/
def applyWrite (scr : Screen) (w : Write) : Screen :=
  fun x y => if x = w.x ∧ y = w.y then some w.ch else scr x y

/-- Apply a sequence of writes, in order. -/
def applyWrites (scr : Screen) (ws : List Write) : Screen :=
  ws.foldl applyWrite scr

/-- The grid has exactly the dimensions the simulation believes it has. -/
def wf (s : Simulation) : Prop :=
  s.cells.length = s.term_height ∧ ∀ row ∈ s.cells, row.length = s.term_width

/-- The simulation states (with their screens) reachable from startup on an
`height × width` terminal: the all-dead grid and blank (cleared) screen,
closed under generation steps, cell toggles (with `u16` coordinates), and
playback toggles. -/
inductive Reach (width height : Nat) : Simulation → Screen → Prop
  | init : Reach width height (initSim width height) blankScreen
  | tick {s scr s1 ws} : Reach width height s scr → tick s = some (s1, ws) →
      Reach width height s1 (applyWrites scr ws)
  | draw {s scr x y s1 w} : Reach width height s scr → x < 65536 → y < 65536 →
      applyDraw s x y = some (s1, w) →
      Reach width height s1 (applyWrite scr w)
  | playpause {s scr} : Reach width height s scr →
      Reach width height { s with running := !s.running } scr

/-- The opposite state. -/
def flipState : CellState → CellState
  | CellState.ALIVE => CellState.DEAD
  | CellState.DEAD => CellState.ALIVE

/-- `g` is a well-formed `H` by `W` grid. -/
def gridDims (H W : Nat) (g : Grid) : Prop :=
  g.length = H ∧ ∀ k, k < H → (g.get? k).map List.length = some W

/-- `g` has the same row structure as `g0`. -/
def sameShape (g0 g : Grid) : Prop :=
  g.length = g0.length ∧
  ∀ k, (g.get? k).map List.length = (g0.get? k).map List.length

/-- Every cell of the working grid `g` carries the prior generation's state
(of `g0`) in its `old_state` field. -/
def oldMatches (g0 g : Grid) : Prop :=
  ∀ p q, (getCell g p q).map Cell.old_state = (getCell g0 p q).map Cell.state

/-- Cell `(p, q)` of the working grid has been advanced to the next
generation. -/
def doneCell (H W : Nat) (g0 g : Grid) (p q : Nat) : Prop :=
  getCell g p q =
    (getCell g0 p q).map fun c => ⟨c.state, nextState H W g0 p q⟩

/-- Cell `(p, q)` of the working grid still carries the prior generation's
state. -/
def pendCell (g0 g : Grid) (p q : Nat) : Prop :=
  getCell g p q = (getCell g0 p q).map fun c => ⟨c.state, c.state⟩

/-- The invariant of `tick`'s main double loop: having fully processed rows
`0..i` and columns `0..j` of row `i` (in row-major order), the processed
cells are advanced, the unprocessed ones untouched, and the emitted writes
are exactly the diff writes of the processed prefix. -/
def Inv (H W : Nat) (g0 : Grid) (i j : Nat) (acc : Grid × List Write) : Prop :=
  sameShape g0 acc.1 ∧
  (∀ p q, ((p < i ∧ q < W) ∨ (p = i ∧ q < j)) → doneCell H W g0 acc.1 p q) ∧
  (∀ p q, ¬((p < i ∧ q < W) ∨ (p = i ∧ q < j)) → pendCell g0 acc.1 p q) ∧
  acc.2 = writesUpTo H W g0 i j

/-! ### Basic lemmas about the grid representation -/

theorem modifyNth_length (f : α → α) (n : Nat) (l : List α) :
    (modifyNth f n l).length = l.length := by
  induction l generalizing n with
  | nil => cases n <;> rfl
  | cons a l ih =>
    cases n with
    | zero => rfl
    | succ m => simp [modifyNth, ih]

theorem get?_modifyNth (f : α → α) (n k : Nat) (l : List α) :
    (modifyNth f n l).get? k = if k = n then (l.get? k).map f else l.get? k := by
  induction l generalizing n k with
  | nil => cases n <;> simp [modifyNth]
  | cons a l ih =>
    cases n with
    | zero =>
      cases k with
      | zero => simp [modifyNth]
      | succ k => simp [modifyNth]
    | succ m =>
      cases k with
      | zero => simp [modifyNth]
      | succ k => simpa [modifyNth, Nat.succ_inj] using ih m k

theorem upd2_length (g : Grid) (i j : Nat) (f : Cell → Cell) :
    (upd2 g i j f).length = g.length := by
  simp [upd2, modifyNth_length]

theorem upd2_row_length (g : Grid) (i j k : Nat) (f : Cell → Cell) :
    ((upd2 g i j f).get? k).map List.length = (g.get? k).map List.length := by
  rw [upd2, get?_modifyNth]
  by_cases h : k = i
  · cases hg : g.get? k with
    | none => simp [h, hg]
    | some row => simp [h, hg, modifyNth_length]
  · simp [h]

theorem getCell_upd2 (g : Grid) (i j p q : Nat) (f : Cell → Cell) :
    getCell (upd2 g i j f) p q =
      if p = i ∧ q = j then (getCell g p q).map f else getCell g p q := by
  by_cases hp : p = i
  · subst hp
    by_cases hq : q = j
    · subst hq
      rw [if_pos ⟨rfl, rfl⟩, getCell, getCell, upd2, get?_modifyNth, if_pos rfl]
      cases hg : g.get? p with
      | none => rfl
      | some row =>
        simp only [Option.map_some', Option.some_bind]
        rw [get?_modifyNth, if_pos rfl]
    · rw [if_neg (fun h => hq h.2), getCell, getCell, upd2, get?_modifyNth,
        if_pos rfl]
      cases hg : g.get? p with
      | none => rfl
      | some row =>
        simp only [Option.map_some', Option.some_bind]
        rw [get?_modifyNth, if_neg hq]
  · rw [if_neg (fun h => hp h.1), getCell, getCell, upd2, get?_modifyNth,
      if_neg hp]

theorem snapshot_length (g : Grid) : (snapshot g).length = g.length := by
  simp [snapshot]

theorem snapshot_row_length (g : Grid) (k : Nat) :
    ((snapshot g).get? k).map List.length = (g.get? k).map List.length := by
  rw [snapshot, List.get?_map]
  cases g.get? k with
  | none => rfl
  | some row => simp

theorem getCell_snapshot (g : Grid) (i j : Nat) :
    getCell (snapshot g) i j =
      (getCell g i j).map fun c => ⟨c.state, c.state⟩ := by
  rw [getCell, getCell, snapshot, List.get?_map]
  cases g.get? i with
  | none => rfl
  | some row => simp [List.get?_map]

theorem getCell_of_length_le (g : Grid) (i j : Nat) (h : g.length ≤ i) :
    getCell g i j = none := by
  rw [getCell, List.get?_eq_none.mpr h]
  rfl

theorem length_mkGrid (H W : Nat) (f : Nat → Nat → Cell) :
    (mkGrid H W f).length = H := by
  simp [mkGrid]

theorem getCell_mkGrid (H W : Nat) (f : Nat → Nat → Cell) {i j : Nat}
    (hi : i < H) (hj : j < W) :
    getCell (mkGrid H W f) i j = some (f i j) := by
  rw [getCell, mkGrid, List.get?_map, List.get?_range hi]
  simp only [Option.map_some', Option.some_bind]
  rw [List.get?_map, List.get?_range hj]
  rfl

theorem mkGrid_row_length (H W : Nat) (f : Nat → Nat → Cell) {i : Nat} (hi : i < H) :
    ((mkGrid H W f).get? i).map List.length = some W := by
  rw [mkGrid, List.get?_map, List.get?_range hi]
  simp

/-! ### The wrapped-index arithmetic

For axis sizes up to `16384` the `i16` computation is exact floored modulo;
the first failures appear at `16385` (see the counterexamples below). -/

theorem wrap16_eq_self {n : Int} (h1 : -32768 ≤ n) (h2 : n ≤ 32767) :
    wrap16 n = n := by
  unfold wrap16
  omega

theorem tmod_small {m d : Int} (h0 : 0 ≤ m) (h : m < d) :
    Int.tmod m d = m := by
  rw [Int.tmod_eq_emod h0 (by omega), Int.emod_eq_of_lt h0 h]

theorem tmod_add_self {m d : Int} (h0 : 0 ≤ m) (h : m < d) :
    Int.tmod (m + d) d = m := by
  rw [Int.tmod_eq_emod (by omega) (by omega)]
  have h2 : (m + d) % d = m % d := by
    simp
  rw [h2, Int.emod_eq_of_lt h0 h]

theorem tmod_neg_one (d : Nat) :
    Int.tmod (-1) (d : Int) = -((1 % d : Nat) : Int) := rfl

theorem i16toUsize_small {m : Int} (h0 : 0 ≤ m) (h : m ≤ 32767) :
    i16toUsize m = m.toNat := by
  have h64 : ((2 : Int) ^ 64) = 18446744073709551616 := by norm_num
  unfold i16toUsize
  rw [h64, Int.emod_eq_of_lt h0 (by omega)]

/-- On an axis of size at most `16384`, stepping down wraps `i` to `(i+1) % d`. -/
theorem nbrIdx_add_one {d i : Nat} (hd : d ≤ 16384) (hi : i < d) :
    nbrIdx d i 1 = (i + 1) % d := by
  have hM : (i + 1) % d < d := Nat.mod_lt _ (by omega)
  unfold nbrIdx modulo
  rw [wrap16_eq_self (n := (d : Int)) (by omega) (by omega),
    wrap16_eq_self (n := (i : Int)) (by omega) (by omega)]
  have e1 : i16add ((i : Int)) 1 = ((i + 1 : Nat) : Int) := by
    unfold i16add
    rw [wrap16_eq_self (by omega) (by omega)]
    push_cast
    ring
  rw [e1]
  have e2 : i16rem ((i + 1 : Nat) : Int) ((d : Int)) = (((i + 1) % d : Nat) : Int) := by
    unfold i16rem
    rw [← Int.ofNat_tmod]
  rw [e2]
  have e3 : i16add ((((i + 1) % d : Nat) : Int)) ((d : Int)) =
      (((i + 1) % d : Nat) : Int) + (d : Int) := by
    unfold i16add
    exact wrap16_eq_self (by omega) (by omega)
  rw [e3]
  have e4 : i16rem ((((i + 1) % d : Nat) : Int) + (d : Int)) ((d : Int)) =
      (((i + 1) % d : Nat) : Int) := by
    unfold i16rem
    exact tmod_add_self (by omega) (by omega)
  rw [e4, i16toUsize_small (by omega) (by omega)]
  omega

/-- On an axis of size at most `16384`, stepping up wraps `i` to
`(i + (d-1)) % d`; in particular index `-1` becomes `d - 1`. -/
theorem nbrIdx_sub_one {d i : Nat} (hd : d ≤ 16384) (hi : i < d) :
    nbrIdx d i (-1) = (i + (d - 1)) % d := by
  unfold nbrIdx modulo
  rw [wrap16_eq_self (n := (d : Int)) (by omega) (by omega),
    wrap16_eq_self (n := (i : Int)) (by omega) (by omega)]
  rcases Nat.eq_zero_or_pos i with hz | hpos
  · subst hz
    have e1 : i16add ((0 : Nat) : Int) (-1) = (-1 : Int) := by
      unfold i16add
      rw [wrap16_eq_self (by omega) (by omega)]
      ring
    rw [e1]
    rcases Nat.lt_or_ge d 2 with hd1 | hd2
    · have hde : d = 1 := by omega
      subst hde
      decide
    · have e2 : i16rem (-1) ((d : Int)) = -1 := by
        unfold i16rem
        rw [tmod_neg_one, Nat.mod_eq_of_lt (by omega)]
        simp
      rw [e2]
      have e3 : i16add (-1) ((d : Int)) = (d : Int) - 1 := by
        unfold i16add
        rw [wrap16_eq_self (by omega) (by omega)]
        ring
      rw [e3]
      have e4 : i16rem ((d : Int) - 1) ((d : Int)) = (d : Int) - 1 := by
        unfold i16rem
        exact tmod_small (by omega) (by omega)
      rw [e4, i16toUsize_small (by omega) (by omega),
        Nat.mod_eq_of_lt (by omega : 0 + (d - 1) < d)]
      omega
  · have e1 : i16add ((i : Int)) (-1) = ((i - 1 : Nat) : Int) := by
      unfold i16add
      rw [wrap16_eq_self (by omega) (by omega)]
      push_cast [hpos]
      ring
    rw [e1]
    have hlt : i - 1 < d := by omega
    have e2 : i16rem ((i - 1 : Nat) : Int) ((d : Int)) = ((i - 1 : Nat) : Int) := by
      unfold i16rem
      exact tmod_small (by omega) (by omega)
    rw [e2]
    have e3 : i16add (((i - 1 : Nat) : Int)) ((d : Int)) =
        ((i - 1 : Nat) : Int) + (d : Int) := by
      unfold i16add
      exact wrap16_eq_self (by omega) (by omega)
    rw [e3]
    have e4 : i16rem (((i - 1 : Nat) : Int) + (d : Int)) ((d : Int)) =
        ((i - 1 : Nat) : Int) := by
      unfold i16rem
      exact tmod_add_self (by omega) (by omega)
    rw [e4, i16toUsize_small (by omega) (by omega)]
    have e5 : i + (d - 1) = (i - 1) + 1 * d := by omega
    rw [e5, Nat.add_mul_mod_self_right, Nat.mod_eq_of_lt hlt]
    omega

theorem nbrIdx_lt {d i : Nat} (hd : d ≤ 16384) (hi : i < d) (δ : Int)
    (hδ : δ = 1 ∨ δ = -1) : nbrIdx d i δ < d := by
  rcases hδ with h | h <;> subst h
  · rw [nbrIdx_add_one hd hi]
    exact Nat.mod_lt _ (by omega)
  · rw [nbrIdx_sub_one hd hi]
    exact Nat.mod_lt _ (by omega)

/-! ### Lemmas about the loop combinator -/

theorem loopFrom_succ (f : Nat → α → Option α) (lo n : Nat) (a : α) :
    loopFrom f lo (n + 1) a = (f lo a).bind fun a2 => loopFrom f (lo + 1) n a2 := rfl

theorem loopFrom_none {f : Nat → α → Option α} {lo n : Nat} {a : α}
    (h : f lo a = none) (hn : 0 < n) : loopFrom f lo n a = none := by
  cases n with
  | zero => exact absurd hn (by simp)
  | succ m => rw [loopFrom_succ, h]; rfl

/-! ### Overflow failure of `tick` on tall grids

On a grid with `32768` rows the very first cell's sixth neighbour read
computes `(0 + 1).modulo(32768 as i16) as usize`, where `32768 as i16 = -32768`;
the result is `2^64 - 32767`, far out of range, and indexing panics. -/

theorem tick_32768_none (W : Nat) (hW1 : 1 ≤ W) (hW : W ≤ 16384)
    (fo fc : Nat → Nat → CellState) :
    tick (mkSim 32768 W fo fc) = none := by
  have hrow : nbrIdx 32768 0 (-1) = 32767 := by decide
  have hbig : nbrIdx 32768 0 1 = 18446744073709518849 := by decide
  have hcl : nbrIdx W 0 (-1) < W := by
    rw [nbrIdx_sub_one hW (by omega)]
    exact Nat.mod_lt _ (by omega)
  have hcr : nbrIdx W 0 1 < W := by
    rw [nbrIdx_add_one hW (by omega)]
    exact Nat.mod_lt _ (by omega)
  have hsome : ∀ a b, a < 32768 → b < W → ∃ v,
      oldAliveInd (snapshot (mkGrid 32768 W fun i j => ⟨fo i j, fc i j⟩)) a b = some v := by
    intro a b ha hb
    rw [oldAliveInd, getCell_snapshot, getCell_mkGrid _ _ _ ha hb]
    exact ⟨_, rfl⟩
  obtain ⟨v1, h1⟩ := hsome (nbrIdx 32768 0 (-1)) (nbrIdx W 0 (-1)) (by omega) hcl
  obtain ⟨v2, h2⟩ := hsome (nbrIdx 32768 0 (-1)) 0 (by omega) (by omega)
  obtain ⟨v3, h3⟩ := hsome (nbrIdx 32768 0 (-1)) (nbrIdx W 0 1) (by omega) hcr
  obtain ⟨v4, h4⟩ := hsome 0 (nbrIdx W 0 (-1)) (by omega) hcl
  obtain ⟨v5, h5⟩ := hsome 0 (nbrIdx W 0 1) (by omega) hcr
  have hnone : oldAliveInd (snapshot (mkGrid 32768 W fun i j => ⟨fo i j, fc i j⟩))
      (nbrIdx 32768 0 1) (nbrIdx W 0 (-1)) = none := by
    rw [oldAliveInd, getCell_of_length_le]
    · rfl
    · rw [snapshot_length, length_mkGrid, hbig]
      norm_num
  have hcount : countNeighbors 32768 W
      (snapshot (mkGrid 32768 W fun i j => ⟨fo i j, fc i j⟩)) 0 0 = none := by
    rw [countNeighbors, h1, h2, h3, h4, h5, hnone]
    rfl
  have hcell : tickCell 32768 W
      ((snapshot (mkGrid 32768 W fun i j => ⟨fo i j, fc i j⟩)), ([] : List Write))
      0 0 = none := by
    rw [tickCell, hcount]
    rfl
  have hmain : loop0
      (fun i acc => loop0 (fun j acc2 => tickCell 32768 W acc2 i j) W acc) 32768
      ((snapshot (mkGrid 32768 W fun i j => ⟨fo i j, fc i j⟩)), ([] : List Write)) = none := by
    apply loopFrom_none _ (by omega)
    apply loopFrom_none _ (by omega)
    exact hcell
  rw [tick]
  simp only [mkSim]
  rw [hmain]
  rfl

/-! ### The generation-step invariant -/

theorem loopFrom_zero (f : Nat → α → Option α) (lo : Nat) (a : α) :
    loopFrom f lo 0 a = some a := rfl

theorem sameShape_upd2_of {g0 g : Grid} (h : sameShape g0 g) (i j : Nat)
    (f : Cell → Cell) : sameShape g0 (upd2 g i j f) := by
  refine ⟨?_, fun k => ?_⟩
  · rw [upd2_length]
    exact h.1
  · rw [upd2_row_length]
    exact h.2 k

theorem sameShape_snapshot (g : Grid) : sameShape g (snapshot g) :=
  ⟨snapshot_length g, fun k => snapshot_row_length g k⟩

theorem writesUpTo_zero (H W : Nat) (g : Grid) : writesUpTo H W g 0 0 = [] := by
  simp [writesUpTo, rowWrites]

theorem filterMap_singleton (f : α → Option β) (a : α) :
    List.filterMap f [a] = (f a).toList := by
  cases h : f a <;> simp [h]

theorem writesUpTo_succ_col (H W : Nat) (g : Grid) (i j : Nat) :
    writesUpTo H W g i (j + 1) =
      writesUpTo H W g i j ++ (writeFor H W g i j).toList := by
  have hrw : rowWrites H W g i (j + 1) =
      rowWrites H W g i j ++ (writeFor H W g i j).toList := by
    rw [rowWrites, rowWrites, List.range_succ, List.filterMap_append,
      filterMap_singleton]
  rw [writesUpTo, writesUpTo, hrw, List.append_assoc]

theorem writesUpTo_row_end (H W : Nat) (g : Grid) (i : Nat) :
    writesUpTo H W g i W = writesUpTo H W g (i + 1) 0 := by
  simp [writesUpTo, rowWrites, List.range_succ]

theorem writesUpTo_final (H W : Nat) (g : Grid) :
    writesUpTo H W g H 0 = writesSpec H W g := by
  simp [writesUpTo, writesSpec, rowWrites]

theorem oldMatches_of_inv {H W : Nat} {g0 g : Grid} {i j : Nat}
    (hdone : ∀ p q, ((p < i ∧ q < W) ∨ (p = i ∧ q < j)) → doneCell H W g0 g p q)
    (hpend : ∀ p q, ¬((p < i ∧ q < W) ∨ (p = i ∧ q < j)) → pendCell g0 g p q) :
    oldMatches g0 g := by
  intro p q
  by_cases h : (p < i ∧ q < W) ∨ (p = i ∧ q < j)
  · rw [hdone p q h]
    cases getCell g0 p q <;> rfl
  · rw [hpend p q h]
    cases getCell g0 p q <;> rfl

theorem oldAliveInd_eq {g0 g : Grid} (hold : oldMatches g0 g) {a b k : Nat}
    (h : oldAliveInd g a b = some k) : k = ind (stateAt g0 a b) := by
  rw [oldAliveInd] at h
  cases hg : getCell g a b with
  | none => rw [hg] at h; exact absurd h (by simp)
  | some c =>
    rw [hg] at h
    have h2 := hold a b
    rw [hg] at h2
    cases hg0 : getCell g0 a b with
    | none => rw [hg0] at h2; exact absurd h2 (by simp)
    | some c0 =>
      rw [hg0] at h2
      simp only [Option.map_some'] at h h2
      injection h with h
      injection h2 with h2
      rw [stateAt, hg0, ← h, ind, h2]

theorem countNeighbors_eq {H W : Nat} {g0 g : Grid} (hold : oldMatches g0 g)
    {i j n : Nat} (h : countNeighbors H W g i j = some n) :
    n = liveNbrs H W g0 i j := by
  rw [countNeighbors] at h
  obtain ⟨k1, h1, h⟩ := Option.bind_eq_some.mp h
  obtain ⟨k2, h2, h⟩ := Option.bind_eq_some.mp h
  obtain ⟨k3, h3, h⟩ := Option.bind_eq_some.mp h
  obtain ⟨k4, h4, h⟩ := Option.bind_eq_some.mp h
  obtain ⟨k5, h5, h⟩ := Option.bind_eq_some.mp h
  obtain ⟨k6, h6, h⟩ := Option.bind_eq_some.mp h
  obtain ⟨k7, h7, h⟩ := Option.bind_eq_some.mp h
  obtain ⟨k8, h8, h⟩ := Option.bind_eq_some.mp h
  injection h with h
  rw [liveNbrs, ← oldAliveInd_eq hold h1, ← oldAliveInd_eq hold h2,
    ← oldAliveInd_eq hold h3, ← oldAliveInd_eq hold h4,
    ← oldAliveInd_eq hold h5, ← oldAliveInd_eq hold h6,
    ← oldAliveInd_eq hold h7, ← oldAliveInd_eq hold h8]
  omega

theorem tickCell_step {H W : Nat} {g0 g : Grid} {ws : List Write} {i j : Nat}
    {acc2 : Grid × List Write} (hinv : Inv H W g0 i j (g, ws)) (hj : j < W)
    (hstep : tickCell H W (g, ws) i j = some acc2) :
    Inv H W g0 i (j + 1) acc2 := by
  obtain ⟨hsh, hdone, hpend, hws⟩ := hinv
  have hold : oldMatches g0 g := oldMatches_of_inv hdone hpend
  rw [tickCell] at hstep
  obtain ⟨n, hn, hstep⟩ := Option.bind_eq_some.mp hstep
  obtain ⟨c, hc, hstep⟩ := Option.bind_eq_some.mp hstep
  have hnL : n = liveNbrs H W g0 i j := countNeighbors_eq hold hn
  have hpij : pendCell g0 g i j := hpend i j (by omega)
  rw [pendCell, hc] at hpij
  cases hg0 : getCell g0 i j with
  | none => rw [hg0] at hpij; exact absurd hpij (by simp)
  | some c0 =>
  rw [hg0] at hpij
  simp only [Option.map_some'] at hpij
  injection hpij with hpij
  have hcs : c.state = c0.state := by rw [hpij]
  have hsA : stateAt g0 i j = c0.state := by rw [stateAt, hg0]
  have hkey : acc2 =
      ((if nextState H W g0 i j = stateAt g0 i j then g else
          upd2 g i j fun c1 => { c1 with state := nextState H W g0 i j }),
        ws ++ (writeFor H W g0 i j).toList) := by
    split_ifs at hstep with hb1 hb2 hb3
    · have hnext : nextState H W g0 i j = CellState.DEAD := by
        rw [nextState, hsA, lifeRule,
          if_pos ⟨by rw [← hcs]; exact hb1.1, by rw [← hnL]; exact hb1.2⟩]
      have hne : ¬(nextState H W g0 i j = stateAt g0 i j) := by
        rw [hnext, hsA, ← hcs, hb1.1]
        exact fun hcon => by cases hcon
      rw [if_neg hne, writeFor, if_neg hne, hnext]
      injection hstep with hstep
      rw [← hstep]
      rfl
    · have hnext : nextState H W g0 i j = CellState.DEAD := by
        rw [nextState, hsA, lifeRule]
        rw [if_neg (by rw [← hcs, ← hnL]; exact hb1),
          if_pos ⟨by rw [← hcs]; exact hb2.1, by rw [← hnL]; exact hb2.2⟩]
      have hne : ¬(nextState H W g0 i j = stateAt g0 i j) := by
        rw [hnext, hsA, ← hcs, hb2.1]
        exact fun hcon => by cases hcon
      rw [if_neg hne, writeFor, if_neg hne, hnext]
      injection hstep with hstep
      rw [← hstep]
      rfl
    · have hnext : nextState H W g0 i j = CellState.ALIVE := by
        rw [nextState, hsA, lifeRule]
        rw [if_neg (by rw [← hcs, ← hnL]; exact hb1),
          if_neg (by rw [← hcs, ← hnL]; exact hb2),
          if_pos ⟨by rw [← hcs]; exact hb3.1, by rw [← hnL]; exact hb3.2⟩]
      have hne : ¬(nextState H W g0 i j = stateAt g0 i j) := by
        rw [hnext, hsA, ← hcs, hb3.1]
        exact fun hcon => by cases hcon
      rw [if_neg hne, writeFor, if_neg hne, hnext]
      injection hstep with hstep
      rw [← hstep]
      rfl
    · have hnext : nextState H W g0 i j = stateAt g0 i j := by
        rw [nextState, hsA, lifeRule]
        rw [if_neg (by rw [← hcs, ← hnL]; exact hb1),
          if_neg (by rw [← hcs, ← hnL]; exact hb2),
          if_neg (by rw [← hcs, ← hnL]; exact hb3)]
      rw [if_pos hnext, writeFor, if_pos hnext]
      injection hstep with hstep
      rw [← hstep]
      simp
  rw [hkey]
  by_cases hch : nextState H W g0 i j = stateAt g0 i j
  · rw [if_pos hch]
    refine ⟨hsh, ?_, ?_, ?_⟩
    · intro p q hsel
      by_cases hij : p = i ∧ q = j
      · rw [doneCell, hij.1, hij.2, hg0, hc, Option.map_some']
        rw [hpij, hch, hsA]
      · exact hdone p q (by omega)
    · intro p q hsel
      exact hpend p q (by omega)
    · rw [writesUpTo_succ_col, ← hws]
  · rw [if_neg hch]
    refine ⟨sameShape_upd2_of hsh i j _, ?_, ?_, ?_⟩
    · intro p q hsel
      by_cases hij : p = i ∧ q = j
      · rw [doneCell, hij.1, hij.2, getCell_upd2, if_pos ⟨rfl, rfl⟩, hc, hg0]
        rw [Option.map_some', Option.map_some', hpij]
      · have hsel2 : (p < i ∧ q < W) ∨ (p = i ∧ q < j) := by omega
        have := hdone p q hsel2
        rw [doneCell, getCell_upd2, if_neg hij]
        exact this
    · intro p q hsel
      have hij : ¬(p = i ∧ q = j) := by omega
      have hsel2 : ¬((p < i ∧ q < W) ∨ (p = i ∧ q < j)) := by omega
      have := hpend p q hsel2
      rw [pendCell, getCell_upd2, if_neg hij]
      exact this
    · rw [writesUpTo_succ_col, ← hws]

theorem inv_init (H W : Nat) (g0 : Grid) : Inv H W g0 0 0 (snapshot g0, []) := by
  refine ⟨sameShape_snapshot g0, ?_, ?_, ?_⟩
  · intro p q hsel
    exact absurd hsel (by omega)
  · intro p q hsel
    rw [pendCell, getCell_snapshot]
  · rw [writesUpTo_zero]

theorem inv_row_end {H W : Nat} {g0 : Grid} {i : Nat} {acc : Grid × List Write}
    (h : Inv H W g0 i W acc) : Inv H W g0 (i + 1) 0 acc := by
  obtain ⟨hsh, hdone, hpend, hws⟩ := h
  refine ⟨hsh, ?_, ?_, ?_⟩
  · intro p q hsel
    exact hdone p q (by omega)
  · intro p q hsel
    exact hpend p q (by omega)
  · rw [hws, writesUpTo_row_end]

theorem loopRow_inv {H W : Nat} {g0 : Grid} {i : Nat} :
    ∀ (n j : Nat) (acc out : Grid × List Write), j + n = W →
      Inv H W g0 i j acc →
      loopFrom (fun q a => tickCell H W a i q) j n acc = some out →
      Inv H W g0 i W out := by
  intro n
  induction n with
  | zero =>
    intro j acc out hjn hinv h
    rw [loopFrom_zero] at h
    injection h with h
    subst h
    have hjW : j = W := by omega
    subst hjW
    exact hinv
  | succ m ih =>
    intro j acc out hjn hinv h
    rw [loopFrom_succ] at h
    obtain ⟨mid, hmid, hrest⟩ := Option.bind_eq_some.mp h
    obtain ⟨g, ws⟩ := acc
    exact ih (j + 1) mid out (by omega)
      (tickCell_step hinv (by omega) hmid) hrest

theorem loopGrid_inv {H W : Nat} {g0 : Grid} :
    ∀ (m i : Nat) (acc out : Grid × List Write), i + m = H →
      Inv H W g0 i 0 acc →
      loopFrom (fun p a => loop0 (fun q a2 => tickCell H W a2 p q) W a) i m acc =
        some out →
      Inv H W g0 H 0 out := by
  intro m
  induction m with
  | zero =>
    intro i acc out him hinv h
    rw [loopFrom_zero] at h
    injection h with h
    subst h
    have hiH : i = H := by omega
    subst hiH
    exact hinv
  | succ m ih =>
    intro i acc out him hinv h
    rw [loopFrom_succ] at h
    obtain ⟨mid, hmid, hrest⟩ := Option.bind_eq_some.mp h
    have hmid2 : loopFrom (fun q a2 => tickCell H W a2 i q) 0 W acc = some mid :=
      hmid
    have hrow := loopRow_inv W 0 acc mid (by omega) hinv hmid2
    exact ih (i + 1) mid out (by omega) (inv_row_end hrow) hrest

/-- The conditional characterization of a completed generation step: whenever
`tick` returns, every in-range cell was advanced by the Life rule applied to
the prior generation's snapshot, every cell's `old_state` holds the prior
state, out-of-range positions are untouched, and the emitted writes are
exactly the diff writes in row-major order. -/
theorem tick_some_spec {s s1 : Simulation} {ws : List Write}
    (h : tick s = some (s1, ws)) :
    s1.running = s.running ∧ s1.term_width = s.term_width ∧
    s1.term_height = s.term_height ∧ sameShape s.cells s1.cells ∧
    (∀ p q, p < s.term_height → q < s.term_width →
      getCell s1.cells p q = (getCell s.cells p q).map fun c =>
        ⟨c.state, nextState s.term_height s.term_width s.cells p q⟩) ∧
    (∀ p q, ¬(p < s.term_height ∧ q < s.term_width) →
      getCell s1.cells p q = (getCell s.cells p q).map fun c => ⟨c.state, c.state⟩) ∧
    ws = writesSpec s.term_height s.term_width s.cells := by
  rw [tick] at h
  obtain ⟨⟨g, wsl⟩, hm, hf⟩ := Option.map_eq_some'.mp h
  injection hf with hf1 hf2
  subst hf2
  rw [loop0] at hm
  have hinv : Inv s.term_height s.term_width s.cells s.term_height 0 (g, wsl) :=
    loopGrid_inv s.term_height 0 _ _ (by omega)
      (inv_init s.term_height s.term_width s.cells) hm
  obtain ⟨hsh, hdone, hpend, hws⟩ := hinv
  subst hf1
  refine ⟨rfl, rfl, rfl, hsh, ?_, ?_, ?_⟩
  · intro p q hp hq
    exact hdone p q (by omega)
  · intro p q hpq
    exact hpend p q (by omega)
  · rw [hws, writesUpTo_final]

/-! ### Success of the generation step on machine-faithful dimensions -/

theorem gridDims_of_wf {s : Simulation} (hwf : wf s) :
    gridDims s.term_height s.term_width s.cells := by
  refine ⟨hwf.1, fun k hk => ?_⟩
  cases hg : s.cells.get? k with
  | none =>
    have hlen := List.get?_eq_none.mp hg
    rw [hwf.1] at hlen
    omega
  | some row =>
    have hmem : row ∈ s.cells := List.get?_mem hg
    simp [hwf.2 row hmem]

theorem getCell_some_of_dims {H W : Nat} {g0 g : Grid} (hdims : gridDims H W g0)
    (hsh : sameShape g0 g) {a b : Nat} (ha : a < H) (hb : b < W) :
    ∃ c, getCell g a b = some c := by
  have hlen := hsh.2 a
  rw [hdims.2 a ha] at hlen
  cases hg : g.get? a with
  | none => rw [hg] at hlen; exact absurd hlen (by simp)
  | some row =>
    rw [hg] at hlen
    simp only [Option.map_some'] at hlen
    injection hlen with hlen
    cases hb2 : row.get? b with
    | none =>
      have hle := List.get?_eq_none.mp hb2
      omega
    | some c =>
      refine ⟨c, ?_⟩
      rw [getCell, hg]
      exact hb2

theorem oldAliveInd_some_of_dims {H W : Nat} {g0 g : Grid} (hdims : gridDims H W g0)
    (hsh : sameShape g0 g) {a b : Nat} (ha : a < H) (hb : b < W) :
    ∃ v, oldAliveInd g a b = some v := by
  obtain ⟨c, hc⟩ := getCell_some_of_dims hdims hsh ha hb
  exact ⟨_, by rw [oldAliveInd, hc]; rfl⟩

theorem countNeighbors_some {H W : Nat} {g0 g : Grid} (hdims : gridDims H W g0)
    (hsh : sameShape g0 g) (hH : H ≤ 16384) (hW : W ≤ 16384) {i j : Nat}
    (hi : i < H) (hj : j < W) :
    ∃ n, countNeighbors H W g i j = some n := by
  have hu : nbrIdx H i (-1) < H := nbrIdx_lt hH hi (-1) (Or.inr rfl)
  have hd : nbrIdx H i 1 < H := nbrIdx_lt hH hi 1 (Or.inl rfl)
  have hl : nbrIdx W j (-1) < W := nbrIdx_lt hW hj (-1) (Or.inr rfl)
  have hr : nbrIdx W j 1 < W := nbrIdx_lt hW hj 1 (Or.inl rfl)
  obtain ⟨v1, e1⟩ := oldAliveInd_some_of_dims hdims hsh hu hl
  obtain ⟨v2, e2⟩ := oldAliveInd_some_of_dims hdims hsh hu hj
  obtain ⟨v3, e3⟩ := oldAliveInd_some_of_dims hdims hsh hu hr
  obtain ⟨v4, e4⟩ := oldAliveInd_some_of_dims hdims hsh hi hl
  obtain ⟨v5, e5⟩ := oldAliveInd_some_of_dims hdims hsh hi hr
  obtain ⟨v6, e6⟩ := oldAliveInd_some_of_dims hdims hsh hd hl
  obtain ⟨v7, e7⟩ := oldAliveInd_some_of_dims hdims hsh hd hj
  obtain ⟨v8, e8⟩ := oldAliveInd_some_of_dims hdims hsh hd hr
  exact ⟨_, by rw [countNeighbors, e1, e2, e3, e4, e5, e6, e7, e8]; rfl⟩

theorem tickCell_some {H W : Nat} {g0 g : Grid} {ws : List Write}
    (hdims : gridDims H W g0) (hsh : sameShape g0 g) (hH : H ≤ 16384)
    (hW : W ≤ 16384) {i j : Nat} (hi : i < H) (hj : j < W) :
    ∃ acc2, tickCell H W (g, ws) i j = some acc2 ∧ sameShape g0 acc2.1 := by
  obtain ⟨n, hn⟩ := countNeighbors_some hdims hsh hH hW hi hj
  obtain ⟨c, hc⟩ := getCell_some_of_dims hdims hsh hi hj
  have hbody : tickCell H W (g, ws) i j =
      if c.state = CellState.ALIVE ∧ n < 2 then
        some (upd2 g i j (fun c0 => { c0 with state := CellState.DEAD }),
          ws ++ [⟨j + 1, i + 1, (' ')⟩])
      else if c.state = CellState.ALIVE ∧ 3 < n then
        some (upd2 g i j (fun c0 => { c0 with state := CellState.DEAD }),
          ws ++ [⟨j + 1, i + 1, (' ')⟩])
      else if c.state = CellState.DEAD ∧ n = 3 then
        some (upd2 g i j (fun c0 => { c0 with state := CellState.ALIVE }),
          ws ++ [⟨j + 1, i + 1, ('o')⟩])
      else some (g, ws) := by
    rw [tickCell, hn, hc]
    rfl
  rw [hbody]
  split_ifs with hb1 hb2 hb3
  · exact ⟨_, rfl, sameShape_upd2_of hsh i j _⟩
  · exact ⟨_, rfl, sameShape_upd2_of hsh i j _⟩
  · exact ⟨_, rfl, sameShape_upd2_of hsh i j _⟩
  · exact ⟨_, rfl, hsh⟩

theorem loopRow_some {H W : Nat} {g0 : Grid} {i : Nat} (hdims : gridDims H W g0)
    (hH : H ≤ 16384) (hW : W ≤ 16384) (hi : i < H) :
    ∀ (n j : Nat) (acc : Grid × List Write), j + n = W → sameShape g0 acc.1 →
      ∃ out, loopFrom (fun q a => tickCell H W a i q) j n acc = some out ∧
        sameShape g0 out.1 := by
  intro n
  induction n with
  | zero =>
    intro j acc hjn hsh
    exact ⟨acc, loopFrom_zero _ _ _, hsh⟩
  | succ m ih =>
    intro j acc hjn hsh
    obtain ⟨g, ws⟩ := acc
    obtain ⟨mid, hmid, hshm⟩ :=
      @tickCell_some H W g0 g ws hdims hsh hH hW i j hi (by omega)
    obtain ⟨out, hout, hsho⟩ := ih (j + 1) mid (by omega) hshm
    refine ⟨out, ?_, hsho⟩
    rw [loopFrom_succ, hmid]
    exact hout

theorem loopGrid_some {H W : Nat} {g0 : Grid} (hdims : gridDims H W g0)
    (hH : H ≤ 16384) (hW : W ≤ 16384) :
    ∀ (m i : Nat) (acc : Grid × List Write), i + m = H → sameShape g0 acc.1 →
      ∃ out,
        loopFrom (fun p a => loop0 (fun q a2 => tickCell H W a2 p q) W a) i m acc =
          some out ∧ sameShape g0 out.1 := by
  intro m
  induction m with
  | zero =>
    intro i acc him hsh
    exact ⟨acc, loopFrom_zero _ _ _, hsh⟩
  | succ m ih =>
    intro i acc him hsh
    obtain ⟨mid, hmid, hshm⟩ :=
      loopRow_some hdims hH hW (i := i) (by omega) W 0 acc (by omega) hsh
    obtain ⟨out, hout, hsho⟩ := ih (i + 1) mid (by omega) hshm
    refine ⟨out, ?_, hsho⟩
    rw [loopFrom_succ]
    have hmid2 : loop0 (fun q a2 => tickCell H W a2 i q) W acc = some mid := hmid
    rw [hmid2]
    exact hout

/-- On a well-formed grid whose dimensions do not overflow the `i16`
neighbour arithmetic (at most `16384` each way), a generation step always
completes. -/
theorem tick_isSome {s : Simulation} (hwf : wf s)
    (hH : s.term_height ≤ 16384) (hW : s.term_width ≤ 16384) :
    ∃ out, tick s = some out := by
  obtain ⟨⟨g, ws⟩, hmain, hsh⟩ :=
    loopGrid_some (gridDims_of_wf hwf) hH hW s.term_height 0
      (snapshot s.cells, ([] : List Write)) (by omega)
      (sameShape_snapshot s.cells)
  refine ⟨({ s with cells := g }, ws), ?_⟩
  rw [tick, loop0, hmain]
  rfl

/-- A completed generation step preserves well-formedness. -/
theorem tick_preserves_wf {s s1 : Simulation} {ws : List Write} (hwf : wf s)
    (h : tick s = some (s1, ws)) : wf s1 := by
  obtain ⟨hrun, hw, hh, hsh, _⟩ := tick_some_spec h
  refine ⟨?_, ?_⟩
  · rw [hh, hsh.1, hwf.1]
  · intro row hrow
    obtain ⟨k, hk⟩ := List.get?_of_mem hrow
    have h2 := hsh.2 k
    rw [hk] at h2
    cases hg : s.cells.get? k with
    | none => rw [hg] at h2; exact absurd h2 (by simp)
    | some row0 =>
      rw [hg] at h2
      simp only [Option.map_some'] at h2
      injection h2 with h2
      rw [hw, h2, hwf.2 row0 (List.get?_mem hg)]

/-! ### Grid extensionality and further update lemmas -/

theorem sameShape_self (g : Grid) : sameShape g g := ⟨rfl, fun _ => rfl⟩

theorem grid_ext {g1 g2 : Grid} (hsh : sameShape g1 g2)
    (hcell : ∀ p q, getCell g1 p q = getCell g2 p q) : g1 = g2 := by
  apply List.ext_get?
  intro k
  have hlen := hsh.2 k
  cases h1 : g1.get? k with
  | none =>
    rw [h1] at hlen
    cases h2 : g2.get? k with
    | none => rfl
    | some row => rw [h2] at hlen; exact absurd hlen (by simp)
  | some row1 =>
    rw [h1] at hlen
    cases h2 : g2.get? k with
    | none => rw [h2] at hlen; exact absurd hlen (by simp)
    | some row2 =>
      congr 1
      apply List.ext_get?
      intro q
      have hpq := hcell k q
      rw [getCell, getCell, h1, h2] at hpq
      exact hpq

theorem modifyNth_modifyNth (f f2 : α → α) : ∀ (n : Nat) (l : List α),
    modifyNth f2 n (modifyNth f n l) = modifyNth (fun a => f2 (f a)) n l := by
  intro n
  induction n with
  | zero => intro l; cases l <;> rfl
  | succ m ih =>
    intro l
    cases l with
    | nil => rfl
    | cons a l => simp [modifyNth, ih]

theorem modifyNth_eq_self (f : α → α) : ∀ (n : Nat) (l : List α),
    (∀ a, l.get? n = some a → f a = a) → modifyNth f n l = l := by
  intro n
  induction n with
  | zero =>
    intro l h
    cases l with
    | nil => rfl
    | cons a l => simp [modifyNth, h a rfl]
  | succ m ih =>
    intro l h
    cases l with
    | nil => rfl
    | cons a l => simp [modifyNth, ih l h]

theorem upd2_upd2 (g : Grid) (i j : Nat) (f f2 : Cell → Cell) :
    upd2 (upd2 g i j f) i j f2 = upd2 g i j fun c => f2 (f c) := by
  rw [upd2, upd2, upd2, modifyNth_modifyNth]
  congr 1
  funext row
  rw [modifyNth_modifyNth]

theorem upd2_eq_self {g : Grid} {i j : Nat} {f : Cell → Cell}
    (h : ∀ c, getCell g i j = some c → f c = c) : upd2 g i j f = g := by
  rw [upd2]
  apply modifyNth_eq_self
  intro row hrow
  apply modifyNth_eq_self
  intro c hc
  apply h
  rw [getCell, hrow]
  exact hc

/-! ### The toggle command -/

theorem u16sub1_eq {a : Nat} (h1 : 1 ≤ a) (h2 : a ≤ 65535) :
    u16sub1 a = a - 1 := by
  unfold u16sub1
  omega

theorem flipState_flipState (c : CellState) : flipState (flipState c) = c := by
  cases c <;> rfl

theorem wf_upd2 {s : Simulation} (hwf : wf s) (i j : Nat) (f : Cell → Cell) :
    wf { s with cells := upd2 s.cells i j f } := by
  refine ⟨?_, ?_⟩
  · rw [upd2_length]
    exact hwf.1
  · intro row hrow
    obtain ⟨k, hk⟩ := List.get?_of_mem hrow
    have h2 := upd2_row_length s.cells i j k f
    rw [hk] at h2
    cases hg : s.cells.get? k with
    | none => rw [hg] at h2; exact absurd h2 (by simp)
    | some row0 =>
      rw [hg] at h2
      simp only [Option.map_some'] at h2
      injection h2 with h2
      rw [h2, hwf.2 row0 (List.get?_mem hg)]

theorem applyDraw_eq (s : Simulation) (x y : Nat) :
    applyDraw s x y =
      (getCell s.cells (u16sub1 y) (u16sub1 x)).bind fun c =>
        if c.state = CellState.DEAD then
          some ({ s with cells := (upd2 s.cells (u16sub1 y) (u16sub1 x)
              (fun c0 => { c0 with state := CellState.ALIVE })) }, ⟨x, y, ('o')⟩)
        else
          some ({ s with cells := (upd2 s.cells (u16sub1 y) (u16sub1 x)
              (fun c0 => { c0 with state := CellState.DEAD })) }, ⟨x, y, (' ')⟩) := by
  rw [applyDraw]
  cases getCell s.cells (u16sub1 y) (u16sub1 x) <;> rfl

/-- Characterization of a `DRAW` command at in-bounds `u16` coordinates:
it succeeds, flips the state of cell `(y-1, x-1)`, and issues one write of
the glyph of the new state at terminal position `(x, y)`. -/
theorem applyDraw_spec {s : Simulation} {x y : Nat} (hwf : wf s)
    (hx1 : 1 ≤ x) (hx : x ≤ s.term_width) (hy1 : 1 ≤ y) (hy : y ≤ s.term_height)
    (hxu : x ≤ 65535) (hyu : y ≤ 65535) :
    ∃ c, getCell s.cells (y - 1) (x - 1) = some c ∧
      applyDraw s x y = some
        ({ s with cells := (upd2 s.cells (y - 1) (x - 1)
            (fun c1 => { c1 with state := flipState c.state })) },
         ⟨x, y, glyph (flipState c.state)⟩) := by
  have hdims := gridDims_of_wf hwf
  have hyy : u16sub1 y = y - 1 := u16sub1_eq (by omega) (by omega)
  have hxx : u16sub1 x = x - 1 := u16sub1_eq (by omega) (by omega)
  obtain ⟨c, hc⟩ := getCell_some_of_dims hdims (sameShape_self s.cells)
    (a := y - 1) (b := x - 1) (by omega) (by omega)
  refine ⟨c, hc, ?_⟩
  rw [applyDraw_eq, hyy, hxx, hc, Option.some_bind]
  cases hcs : c.state with
  | DEAD => rfl
  | ALIVE => rfl

/-! ### Draining commands -/

theorem drain_nil (s : Simulation) : drain s [] = some (s, [], false) := rfl

theorem drain_quit (s : Simulation) (rest : List SimulationEvent) :
    drain s (SimulationEvent.QUIT :: rest) = some (s, [], true) := rfl

theorem drain_playpause (s : Simulation) (rest : List SimulationEvent) :
    drain s (SimulationEvent.PLAYPAUSE :: rest) =
      drain { s with running := !s.running } rest := rfl

theorem drain_draw (s : Simulation) (x y : Nat) (rest : List SimulationEvent) :
    drain s (SimulationEvent.DRAW x y :: rest) =
      (applyDraw s x y).bind fun p =>
        (drain p.1 rest).bind fun q => some (q.1, p.2 :: q.2.1, q.2.2) := by
  rw [drain]
  cases hd : applyDraw s x y with
  | none => rfl
  | some p =>
    obtain ⟨s1, w⟩ := p
    cases hq : drain s1 rest with
    | none => rfl
    | some q =>
      obtain ⟨s2, ws, b⟩ := q
      rfl

/-- Events after a `QUIT` in the same drained batch are never looked at. -/
theorem drain_append_quit (post : List SimulationEvent) :
    ∀ (pre : List SimulationEvent) (s : Simulation),
      drain s (pre ++ SimulationEvent.QUIT :: post) =
        drain s (pre ++ [SimulationEvent.QUIT]) := by
  intro pre
  induction pre with
  | nil => intro s; rfl
  | cons e rest ih =>
    intro s
    cases e with
    | QUIT => rfl
    | PLAYPAUSE =>
      rw [List.cons_append, List.cons_append, drain_playpause, drain_playpause]
      exact ih _
    | DRAW x y =>
      rw [List.cons_append, List.cons_append, drain_draw, drain_draw]
      cases hd : applyDraw s x y with
      | none => rfl
      | some p =>
        rw [Option.some_bind, Option.some_bind, ih p.1]

/-- A batch containing `QUIT` always reports termination when it completes. -/
theorem drain_quit_flag :
    ∀ (l : List SimulationEvent) (s : Simulation)
      (out : Simulation × List Write × Bool),
      SimulationEvent.QUIT ∈ l → drain s l = some out → out.2.2 = true := by
  intro l
  induction l with
  | nil => intro s out hmem; exact absurd hmem (by simp)
  | cons e rest ih =>
    intro s out hmem h
    cases e with
    | QUIT =>
      rw [drain_quit] at h
      injection h with h
      rw [← h]
    | PLAYPAUSE =>
      rw [drain_playpause] at h
      refine ih _ out ?_ h
      cases hmem with
      | tail _ hm => exact hm
    | DRAW x y =>
      rw [drain_draw] at h
      obtain ⟨p, hp, h⟩ := Option.bind_eq_some.mp h
      obtain ⟨q, hq, h⟩ := Option.bind_eq_some.mp h
      injection h with h
      have hm2 : SimulationEvent.QUIT ∈ rest := by
        cases hmem with
        | tail _ hm => exact hm
      have := ih p.1 q hm2 hq
      rw [← h]
      exact this

/-! ### Grids built from patterns -/

theorem wf_mkSim (H W : Nat) (fo fc : Nat → Nat → CellState) :
    wf (mkSim H W fo fc) := by
  refine ⟨?_, ?_⟩
  · simp [mkSim, mkGrid]
  · intro row hrow
    simp only [mkSim, mkGrid, List.mem_map] at hrow
    obtain ⟨k, hk, hrow⟩ := hrow
    simp [mkSim, ← hrow]

theorem stateAt_mkSim (H W : Nat) (fo fc : Nat → Nat → CellState) {i j : Nat}
    (hi : i < H) (hj : j < W) :
    stateAt (mkSim H W fo fc).cells i j = fc i j := by
  show stateAt (mkGrid H W fun a b => ⟨fo a b, fc a b⟩) i j = fc i j
  rw [stateAt, getCell_mkGrid _ _ _ hi hj]

theorem mkGrid_get?_none (H W : Nat) (f : Nat → Nat → Cell) {k : Nat}
    (hk : ¬k < H) : (mkGrid H W f).get? k = none := by
  rw [mkGrid, List.get?_map,
    List.get?_eq_none.mpr (show (List.range H).length ≤ k by simp; omega)]
  rfl

theorem getCell_mkGrid_none (H W : Nat) (f : Nat → Nat → Cell) {p q : Nat}
    (h : ¬(p < H ∧ q < W)) : getCell (mkGrid H W f) p q = none := by
  by_cases hp : p < H
  · rw [getCell, mkGrid, List.get?_map, List.get?_range hp]
    simp only [Option.map_some', Option.some_bind]
    rw [List.get?_eq_none.mpr
      (show (List.map (f p) (List.range W)).length ≤ q by simp; omega)]
  · exact getCell_of_length_le _ _ _ (by rw [length_mkGrid]; omega)

theorem ind_prodPat (rows cols : Nat → Prop) [DecidablePred rows]
    [DecidablePred cols] (a b : Nat) :
    ind (prodPat rows cols a b) =
      (if rows a then 1 else 0) * (if cols b then 1 else 0) := by
  rw [prodPat, ind]
  by_cases hr : rows a <;> by_cases hc : cols b <;> simp [hr, hc]

/-- The neighbour count on a product-shaped pattern factors through row and
column membership of the wrapped window positions. -/
theorem liveNbrs_mkSim (H W : Nat) (fo : Nat → Nat → CellState)
    (rows cols : Nat → Prop) [DecidablePred rows] [DecidablePred cols]
    (hH : H ≤ 16384) (hW : W ≤ 16384) {i j : Nat} (hi : i < H) (hj : j < W) :
    liveNbrs H W (mkSim H W fo (prodPat rows cols)).cells i j =
      (if rows ((i + (H - 1)) % H) then 1 else 0) *
          (if cols ((j + (W - 1)) % W) then 1 else 0) +
        (if rows ((i + (H - 1)) % H) then 1 else 0) * (if cols j then 1 else 0) +
        (if rows ((i + (H - 1)) % H) then 1 else 0) *
          (if cols ((j + 1) % W) then 1 else 0) +
        (if rows i then 1 else 0) * (if cols ((j + (W - 1)) % W) then 1 else 0) +
        (if rows i then 1 else 0) * (if cols ((j + 1) % W) then 1 else 0) +
        (if rows ((i + 1) % H) then 1 else 0) *
          (if cols ((j + (W - 1)) % W) then 1 else 0) +
        (if rows ((i + 1) % H) then 1 else 0) * (if cols j then 1 else 0) +
        (if rows ((i + 1) % H) then 1 else 0) *
          (if cols ((j + 1) % W) then 1 else 0) := by
  have hst : ∀ a b, a < H → b < W →
      stateAt (mkSim H W fo (prodPat rows cols)).cells a b = prodPat rows cols a b :=
    fun a b ha hb => stateAt_mkSim H W fo (prodPat rows cols) ha hb
  have hu : (i + (H - 1)) % H < H := Nat.mod_lt _ (by omega)
  have hd : (i + 1) % H < H := Nat.mod_lt _ (by omega)
  have hl : (j + (W - 1)) % W < W := Nat.mod_lt _ (by omega)
  have hr : (j + 1) % W < W := Nat.mod_lt _ (by omega)
  rw [liveNbrs, nbrIdx_sub_one hH hi, nbrIdx_add_one hH hi,
    nbrIdx_sub_one hW hj, nbrIdx_add_one hW hj,
    hst _ _ hu hl, hst _ _ hu hj, hst _ _ hu hr, hst _ _ hi hl,
    hst _ _ hi hr, hst _ _ hd hl, hst _ _ hd hj, hst _ _ hd hr]
  simp only [ind_prodPat]

/-- The wrapped upward window position, with the modulus eliminated. -/
theorem up_val (d i : Nat) (hi : i < d) :
    (i + (d - 1)) % d = if i = 0 then d - 1 else i - 1 := by
  rcases Nat.eq_zero_or_pos i with h | h
  · subst h
    rw [if_pos rfl, Nat.zero_add]
    exact Nat.mod_eq_of_lt (by omega)
  · rw [if_neg (by omega)]
    have e : i + (d - 1) = (i - 1) + 1 * d := by omega
    rw [e, Nat.add_mul_mod_self_right, Nat.mod_eq_of_lt (by omega)]

/-- The wrapped downward window position, with the modulus eliminated. -/
theorem dn_val (d i : Nat) (hi : i < d) :
    (i + 1) % d = if i + 1 = d then 0 else i + 1 := by
  split_ifs with h
  · rw [h, Nat.mod_self]
  · exact Nat.mod_eq_of_lt (by omega)

/-- If every cell advances from `fc` to `fc2`, a completed step on the
pattern simulation is exactly the pattern simulation of the next phase. -/
theorem tick_mkSim_eq {H W : Nat} (fo fc fc2 : Nat → Nat → CellState)
    (hH1 : 1 ≤ H) (hW1 : 1 ≤ W) (hH : H ≤ 16384) (hW : W ≤ 16384)
    (hnext : ∀ i j, i < H → j < W →
      nextState H W (mkSim H W fo fc).cells i j = fc2 i j) :
    ∃ ws, tick (mkSim H W fo fc) = some (mkSim H W fc fc2, ws) := by
  obtain ⟨⟨s1, ws⟩, h⟩ := tick_isSome (wf_mkSim H W fo fc) hH hW
  obtain ⟨hrun, hw, hh, hsh, hdone, hpend, hws⟩ := tick_some_spec h
  have hTH : (mkSim H W fo fc).term_height = H := rfl
  have hTW : (mkSim H W fo fc).term_width = W := rfl
  rw [hTH, hTW] at hdone hpend
  refine ⟨ws, ?_⟩
  rw [h]
  have hcells : s1.cells = (mkSim H W fc fc2).cells := by
    apply grid_ext
    · refine ⟨?_, fun k => ?_⟩
      · show (mkSim H W fc fc2).cells.length = s1.cells.length
        rw [hsh.1]
        show (mkGrid H W _).length = (mkGrid H W _).length
        rw [length_mkGrid, length_mkGrid]
      · show ((mkSim H W fc fc2).cells.get? k).map List.length =
          (s1.cells.get? k).map List.length
        rw [hsh.2 k]
        show ((mkGrid H W _).get? k).map List.length =
          ((mkGrid H W _).get? k).map List.length
        by_cases hk : k < H
        · rw [mkGrid_row_length H W _ hk, mkGrid_row_length H W _ hk]
        · rw [mkGrid_get?_none H W _ hk, mkGrid_get?_none H W _ hk]
    · intro p q
      by_cases hpq : p < H ∧ q < W
      · have h1 := hdone p q hpq.1 hpq.2
        have h2 : getCell (mkSim H W fo fc).cells p q = some ⟨fo p q, fc p q⟩ := by
          show getCell (mkGrid H W _) p q = _
          rw [getCell_mkGrid _ _ _ hpq.1 hpq.2]
        rw [h2, Option.map_some'] at h1
        rw [h1, hnext p q hpq.1 hpq.2]
        show _ = getCell (mkGrid H W _) p q
        rw [getCell_mkGrid _ _ _ hpq.1 hpq.2]
      · have h1 := hpend p q hpq
        have h2 : getCell (mkSim H W fo fc).cells p q = none := by
          show getCell (mkGrid H W _) p q = none
          exact getCell_mkGrid_none H W _ hpq
        rw [h2] at h1
        rw [h1]
        show _ = getCell (mkGrid H W _) p q
        rw [getCell_mkGrid_none H W _ hpq]
        rfl
  obtain ⟨r1, w1, t1, c1⟩ := s1
  simp only at hrun hw hh hcells
  rw [hrun, hw, hh, hcells]
  rfl

/-- Window membership for an interior target row/column: only the adjacent
index maps onto `t`. -/
theorem up_eq (d i t : Nat) (hi : i < d) (h1 : 1 ≤ t) (h2 : t ≤ d - 2) :
    ((i + (d - 1)) % d = t) ↔ i = t + 1 := by
  rw [up_val d i hi]
  split_ifs with h0 <;> omega

theorem dn_eq (d i t : Nat) (hi : i < d) (h1 : 1 ≤ t) (h2 : t ≤ d - 2) :
    ((i + 1) % d = t) ↔ i + 1 = t := by
  rw [dn_val d i hi]
  split_ifs with h0 <;> omega

set_option maxHeartbeats 1000000 in
/-- One step of the horizontal blinker yields the vertical blinker. -/
theorem blinkH_next (H W r c : Nat) (fo : Nat → Nat → CellState)
    (hH5 : 5 ≤ H) (hH : H ≤ 16384) (hW5 : 5 ≤ W) (hW : W ≤ 16384)
    (hr1 : 2 ≤ r) (hr2 : r ≤ H - 3) (hc1 : 2 ≤ c) (hc2 : c ≤ W - 3)
    {i j : Nat} (hi : i < H) (hj : j < W) :
    nextState H W (mkSim H W fo (blinkH r c)).cells i j = blinkV r c i j := by
  have hn := liveNbrs_mkSim H W fo (fun a => a = r)
    (fun b => b = c - 1 ∨ b = c ∨ b = c + 1) hH hW hi hj
  simp only [up_eq H i r hi (by omega) (by omega),
    dn_eq H i r hi (by omega) (by omega),
    up_eq W j (c - 1) hj (by omega) (by omega),
    up_eq W j c hj (by omega) (by omega),
    up_eq W j (c + 1) hj (by omega) (by omega),
    dn_eq W j (c - 1) hj (by omega) (by omega),
    dn_eq W j c hj (by omega) (by omega),
    dn_eq W j (c + 1) hj (by omega) (by omega)] at hn
  rw [nextState,
    show blinkH r c =
      prodPat (fun a => a = r) (fun b => b = c - 1 ∨ b = c ∨ b = c + 1) from rfl,
    show blinkV r c =
      prodPat (fun a => a = r - 1 ∨ a = r ∨ a = r + 1) (fun b => b = c) from rfl,
    stateAt_mkSim H W fo _ hi hj, hn]
  clear hn
  simp only [prodPat]
  split_ifs <;> first | rfl | omega

set_option maxHeartbeats 1000000 in
/-- One step of the vertical blinker restores the horizontal blinker. -/
theorem blinkV_next (H W r c : Nat) (fo : Nat → Nat → CellState)
    (hH5 : 5 ≤ H) (hH : H ≤ 16384) (hW5 : 5 ≤ W) (hW : W ≤ 16384)
    (hr1 : 2 ≤ r) (hr2 : r ≤ H - 3) (hc1 : 2 ≤ c) (hc2 : c ≤ W - 3)
    {i j : Nat} (hi : i < H) (hj : j < W) :
    nextState H W (mkSim H W fo (blinkV r c)).cells i j = blinkH r c i j := by
  have hn := liveNbrs_mkSim H W fo (fun a => a = r - 1 ∨ a = r ∨ a = r + 1)
    (fun b => b = c) hH hW hi hj
  simp only [up_eq H i (r - 1) hi (by omega) (by omega),
    up_eq H i r hi (by omega) (by omega),
    up_eq H i (r + 1) hi (by omega) (by omega),
    dn_eq H i (r - 1) hi (by omega) (by omega),
    dn_eq H i r hi (by omega) (by omega),
    dn_eq H i (r + 1) hi (by omega) (by omega),
    up_eq W j c hj (by omega) (by omega),
    dn_eq W j c hj (by omega) (by omega)] at hn
  rw [nextState,
    show blinkV r c =
      prodPat (fun a => a = r - 1 ∨ a = r ∨ a = r + 1) (fun b => b = c) from rfl,
    show blinkH r c =
      prodPat (fun a => a = r) (fun b => b = c - 1 ∨ b = c ∨ b = c + 1) from rfl,
    stateAt_mkSim H W fo _ hi hj, hn]
  clear hn
  simp only [prodPat]
  split_ifs <;> first | rfl | omega

/-- Window membership valid up to the edges, wraparound included. -/
theorem up_mem (d i t : Nat) (hi : i < d) (ht : t < d) :
    ((i + (d - 1)) % d = t) ↔ (i = t + 1 ∨ (t = d - 1 ∧ i = 0)) := by
  rw [up_val d i hi]
  split_ifs <;> omega

theorem dn_mem (d i t : Nat) (hi : i < d) (ht : t < d) :
    ((i + 1) % d = t) ↔ (i + 1 = t ∨ (t = 0 ∧ i + 1 = d)) := by
  rw [dn_val d i hi]
  split_ifs <;> omega

set_option maxHeartbeats 4000000 in
/-- One step of the 2×2 block leaves it unchanged (anywhere on a grid of
side at least 4, wraparound included). -/
theorem block_next (H W r c : Nat) (fo : Nat → Nat → CellState)
    (hH4 : 4 ≤ H) (hH : H ≤ 16384) (hW4 : 4 ≤ W) (hW : W ≤ 16384)
    (hr2 : r + 1 ≤ H - 1) (hc2 : c + 1 ≤ W - 1)
    {i j : Nat} (hi : i < H) (hj : j < W) :
    nextState H W (mkSim H W fo (blockPat r c)).cells i j = blockPat r c i j := by
  have hn := liveNbrs_mkSim H W fo (fun a => a = r ∨ a = r + 1)
    (fun b => b = c ∨ b = c + 1) hH hW hi hj
  simp only [up_mem H i r hi (by omega), up_mem H i (r + 1) hi (by omega),
    dn_mem H i r hi (by omega), dn_mem H i (r + 1) hi (by omega),
    up_mem W j c hj (by omega), up_mem W j (c + 1) hj (by omega),
    dn_mem W j c hj (by omega), dn_mem W j (c + 1) hj (by omega)] at hn
  rw [nextState,
    show blockPat r c =
      prodPat (fun a => a = r ∨ a = r + 1) (fun b => b = c ∨ b = c + 1) from rfl,
    stateAt_mkSim H W fo _ hi hj, hn]
  clear hn
  simp only [prodPat]
  split_ifs <;> first | rfl | omega | (casesm* _ ∨ _, _ ∧ _, False <;> omega)

/-- A completed step on the block pattern. -/
theorem block_tick (H W r c : Nat) (fo : Nat → Nat → CellState)
    (hH4 : 4 ≤ H) (hH : H ≤ 16384) (hW4 : 4 ≤ W) (hW : W ≤ 16384)
    (hr2 : r + 1 ≤ H - 1) (hc2 : c + 1 ≤ W - 1) :
    ∃ ws, tick (mkSim H W fo (blockPat r c)) =
      some (mkSim H W (blockPat r c) (blockPat r c), ws) :=
  tick_mkSim_eq fo (blockPat r c) (blockPat r c) (by omega) (by omega) hH hW
    (fun i j hi hj => block_next H W r c fo hH4 hH hW4 hW hr2 hc2 hi hj)

theorem tickIter_succ (k : Nat) (s : Simulation) :
    tickIter (k + 1) s = (tick s).bind fun p => tickIter k p.1 := rfl

/-- Any number of generation steps leaves the block pattern in place. -/
theorem block_iter (H W r c : Nat)
    (hH4 : 4 ≤ H) (hH : H ≤ 16384) (hW4 : 4 ≤ W) (hW : W ≤ 16384)
    (hr2 : r + 1 ≤ H - 1) (hc2 : c + 1 ≤ W - 1) :
    ∀ (k : Nat) (fo : Nat → Nat → CellState), ∃ fo2,
      tickIter k (mkSim H W fo (blockPat r c)) = some (mkSim H W fo2 (blockPat r c)) := by
  intro k
  induction k with
  | zero => intro fo; exact ⟨fo, rfl⟩
  | succ m ih =>
    intro fo
    obtain ⟨ws, hws⟩ := block_tick H W r c fo hH4 hH hW4 hW hr2 hc2
    obtain ⟨fo2, hiter⟩ := ih (blockPat r c)
    refine ⟨fo2, ?_⟩
    rw [tickIter_succ, hws, Option.some_bind]
    exact hiter

/-! ### Screen bookkeeping -/

theorem get?_replicate (a : α) : ∀ (n k : Nat),
    (List.replicate n a).get? k = if k < n then some a else none := by
  intro n
  induction n with
  | zero => intro k; simp
  | succ m ih =>
    intro k
    cases k with
    | zero => simp [List.replicate]
    | succ k =>
      rw [List.replicate, List.get?]
      rw [ih k]
      by_cases hk : k < m
      · rw [if_pos hk, if_pos (by omega)]
      · rw [if_neg hk, if_neg (by omega)]

theorem wf_initSim (width height : Nat) : wf (initSim width height) := by
  refine ⟨by simp [initSim], ?_⟩
  intro row hrow
  simp only [initSim] at hrow
  rw [List.eq_of_mem_replicate hrow]
  simp [initSim]

theorem getCell_initSim (width height i j : Nat) :
    getCell (initSim width height).cells i j =
      if i < height ∧ j < width then some ⟨CellState.DEAD, CellState.DEAD⟩
      else none := by
  rw [getCell]
  show ((List.replicate height
    (List.replicate width (⟨CellState.DEAD, CellState.DEAD⟩ : Cell))).get? i).bind
      (fun row => row.get? j) = _
  rw [get?_replicate]
  by_cases hi : i < height
  · rw [if_pos hi, Option.some_bind, get?_replicate]
    by_cases hj : j < width
    · rw [if_pos hj, if_pos ⟨hi, hj⟩]
    · rw [if_neg hj, if_neg (fun h => hj h.2)]
  · rw [if_neg hi, if_neg (fun h => hi h.1)]
    rfl

theorem stateAt_initSim (width height i j : Nat) :
    stateAt (initSim width height).cells i j = CellState.DEAD := by
  rw [stateAt, getCell_initSim]
  by_cases h : i < height ∧ j < width
  · rw [if_pos h]
  · rw [if_neg h]

theorem applyWrites_cons (scr : Screen) (w : Write) (ws : List Write) :
    applyWrites scr (w :: ws) = applyWrites (applyWrite scr w) ws := rfl

theorem applyWrites_no_match {ws : List Write} :
    ∀ {scr : Screen} {x y : Nat}, (∀ w ∈ ws, ¬(x = w.x ∧ y = w.y)) →
      applyWrites scr ws x y = scr x y := by
  induction ws with
  | nil => intro scr x y h; rfl
  | cons w ws ih =>
    intro scr x y h
    rw [applyWrites_cons, ih (fun w2 hw2 => h w2 (List.mem_cons_of_mem w hw2))]
    rw [applyWrite, if_neg (h w (List.mem_cons_self w ws))]

theorem applyWrites_unique {ws : List Write} :
    ∀ {scr : Screen} {x y : Nat} {w0 : Write}, w0 ∈ ws → x = w0.x → y = w0.y →
      (∀ w ∈ ws, (x = w.x ∧ y = w.y) → w = w0) →
      applyWrites scr ws x y = some w0.ch := by
  induction ws with
  | nil => intro scr x y w0 hmem; exact absurd hmem (by simp)
  | cons w ws ih =>
    intro scr x y w0 hmem hx hy huniq
    rw [applyWrites_cons]
    by_cases hm : ∃ w2 ∈ ws, x = w2.x ∧ y = w2.y
    · obtain ⟨w2, hw2, hxy2⟩ := hm
      have hw20 : w2 = w0 := huniq w2 (List.mem_cons_of_mem w hw2) hxy2
      subst hw20
      exact ih hw2 hx hy fun w3 hw3 h3 =>
        huniq w3 (List.mem_cons_of_mem w hw3) h3
    · push_neg at hm
      have hnm : ∀ w2 ∈ ws, ¬(x = w2.x ∧ y = w2.y) := by
        intro w2 hw2 hcon
        exact (hm w2 hw2 hcon.1) hcon.2
      rw [applyWrites_no_match hnm]
      cases hmem with
      | head =>
        rw [applyWrite, if_pos ⟨hx, hy⟩]
      | tail _ hmemt =>
        exact absurd (And.intro hx hy)
          fun hcon => (hm w0 hmemt hcon.1) hcon.2

theorem writeFor_pos {H W : Nat} {g : Grid} {i j : Nat} {w : Write}
    (h : writeFor H W g i j = some w) :
    nextState H W g i j ≠ stateAt g i j ∧
      w = ⟨j + 1, i + 1, glyph (nextState H W g i j)⟩ := by
  rw [writeFor] at h
  split_ifs at h with hc
  refine ⟨hc, ?_⟩
  injection h with h2
  exact h2.symm

theorem writeFor_none {H W : Nat} {g : Grid} {i j : Nat}
    (h : nextState H W g i j = stateAt g i j) : writeFor H W g i j = none := by
  rw [writeFor, if_pos h]

theorem writeFor_some {H W : Nat} {g : Grid} {i j : Nat}
    (h : nextState H W g i j ≠ stateAt g i j) :
    writeFor H W g i j = some ⟨j + 1, i + 1, glyph (nextState H W g i j)⟩ := by
  rw [writeFor, if_neg h]

theorem writesSpec_mem {H W : Nat} {g : Grid} {w : Write} :
    w ∈ writesSpec H W g ↔
      ∃ i j, i < H ∧ j < W ∧ writeFor H W g i j = some w := by
  simp only [writesSpec, rowWrites, List.mem_flatten, List.mem_map,
    List.mem_filterMap, List.mem_range]
  constructor
  · rintro ⟨l, ⟨i, hi, hl⟩, hw⟩
    rw [← hl] at hw
    simp only [List.mem_filterMap, List.mem_range] at hw
    obtain ⟨j, hj, hfw⟩ := hw
    exact ⟨i, j, hi, hj, hfw⟩
  · rintro ⟨i, j, hi, hj, hfw⟩
    refine ⟨(List.range W).filterMap fun q => writeFor H W g i q, ⟨i, hi, rfl⟩, ?_⟩
    simp only [List.mem_filterMap, List.mem_range]
    exact ⟨j, hj, hfw⟩

theorem stateAt_upd2 (g : Grid) (a b p q : Nat) (f : Cell → Cell) :
    stateAt (upd2 g a b f) p q =
      if p = a ∧ q = b then
        (match getCell g p q with
          | some c => (f c).state
          | none => CellState.DEAD)
      else stateAt g p q := by
  rw [stateAt, getCell_upd2]
  by_cases h : p = a ∧ q = b
  · rw [if_pos h, if_pos h]
    cases getCell g p q <;> rfl
  · rw [if_neg h, if_neg h, stateAt]

theorem getCell_bounds {s : Simulation} (hwf : wf s) {a b : Nat} {c : Cell}
    (h : getCell s.cells a b = some c) : a < s.term_height ∧ b < s.term_width := by
  rw [getCell] at h
  cases hg : s.cells.get? a with
  | none => rw [hg] at h; exact absurd h (by simp)
  | some row =>
    rw [hg] at h
    simp only [Option.some_bind] at h
    constructor
    · by_contra hcon
      rw [List.get?_eq_none.mpr (by rw [hwf.1]; omega)] at hg
      exact absurd hg (by simp)
    · by_contra hcon
      rw [List.get?_eq_none.mpr
        (by rw [hwf.2 row (List.get?_mem hg)]; omega)] at h
      exact absurd h (by simp)

/-- The rendering invariant: every reachable state keeps its dimensions and
well-formedness, and each in-range cell's `state` is `ALIVE` exactly when the
last character written at the cell's terminal position `(col+1, row+1)` is
the live glyph. -/
theorem reach_inv {width height : Nat} (hW65 : width ≤ 65535)
    (hH65 : height ≤ 65535) {s : Simulation} {scr : Screen}
    (h : Reach width height s scr) :
    (s.term_width = width ∧ s.term_height = height ∧ wf s) ∧
    ∀ i j, i < height → j < width →
      ((stateAt s.cells i j = CellState.ALIVE) ↔ scr (j + 1) (i + 1) = some ('o')) := by
  induction h with
  | init =>
    refine ⟨⟨rfl, rfl, wf_initSim width height⟩, ?_⟩
    intro i j hi hj
    rw [stateAt_initSim]
    constructor
    · intro hcon; exact absurd hcon (by decide)
    · intro hcon; exact absurd hcon (by simp [blankScreen])
  | @tick s0 scr0 s1 ws hreach htick ih =>
    obtain ⟨⟨hw, hh, hwf⟩, hscr⟩ := ih
    obtain ⟨hrun, hw1, hh1, hsh, hdone, hpend, hws⟩ := tick_some_spec htick
    rw [hw, hh] at hdone hws
    refine ⟨⟨by rw [hw1, hw], by rw [hh1, hh], tick_preserves_wf hwf htick⟩, ?_⟩
    intro i j hi hj
    obtain ⟨c0, hc0⟩ := getCell_some_of_dims (gridDims_of_wf hwf)
      (sameShape_self _) (a := i) (b := j) (by omega) (by omega)
    have hstate1 : stateAt s1.cells i j = nextState height width s0.cells i j := by
      have hd := hdone i j (by omega) (by omega)
      rw [stateAt, hd, hc0, Option.map_some']
    by_cases hch : nextState height width s0.cells i j = stateAt s0.cells i j
    · have hnone := writeFor_none hch
      have hnm : ∀ w ∈ ws, ¬(j + 1 = w.x ∧ i + 1 = w.y) := by
        intro w hw2 hcon
        rw [hws] at hw2
        obtain ⟨i2, j2, hi2, hj2, hf2⟩ := writesSpec_mem.mp hw2
        obtain ⟨hne2, hw2eq⟩ := writeFor_pos hf2
        have hx : w.x = j2 + 1 := by rw [hw2eq]
        have hy : w.y = i2 + 1 := by rw [hw2eq]
        have h1 : j + 1 = j2 + 1 := by rw [hcon.1, hx]
        have h2 : i + 1 = i2 + 1 := by rw [hcon.2, hy]
        have hi2e : i2 = i := by omega
        have hj2e : j2 = j := by omega
        rw [hi2e, hj2e, hnone] at hf2
        exact absurd hf2 (by simp)
      rw [applyWrites_no_match hnm, hstate1, hch]
      exact hscr i j hi hj
    · have hsome := writeFor_some hch
      have hmem : (⟨j + 1, i + 1, glyph (nextState height width s0.cells i j)⟩ :
          Write) ∈ ws := by
        rw [hws]
        exact writesSpec_mem.mpr ⟨i, j, by omega, by omega, hsome⟩
      have huniq : ∀ w ∈ ws, (j + 1 = w.x ∧ i + 1 = w.y) →
          w = (⟨j + 1, i + 1, glyph (nextState height width s0.cells i j)⟩ :
            Write) := by
        intro w hw2 hcon
        rw [hws] at hw2
        obtain ⟨i2, j2, hi2, hj2, hf2⟩ := writesSpec_mem.mp hw2
        obtain ⟨hne2, hw2eq⟩ := writeFor_pos hf2
        have hx : w.x = j2 + 1 := by rw [hw2eq]
        have hy : w.y = i2 + 1 := by rw [hw2eq]
        have h1 : j + 1 = j2 + 1 := by rw [hcon.1, hx]
        have h2 : i + 1 = i2 + 1 := by rw [hcon.2, hy]
        have hi2e : i2 = i := by omega
        have hj2e : j2 = j := by omega
        rw [hi2e, hj2e, hsome] at hf2
        injection hf2 with hf2
        rw [hw2eq, hi2e, hj2e, hf2]
      rw [applyWrites_unique hmem rfl rfl huniq, hstate1]
      cases hnext : nextState height width s0.cells i j <;> simp [glyph]
  | @draw s0 scr0 x y s1 w hreach hx65 hy65 hdraw ih =>
    obtain ⟨⟨hw, hh, hwf⟩, hscr⟩ := ih
    rw [applyDraw_eq] at hdraw
    obtain ⟨c, hc, hdraw⟩ := Option.bind_eq_some.mp hdraw
    obtain ⟨hrow, hcol⟩ := getCell_bounds hwf hc
    rw [hh] at hrow
    rw [hw] at hcol
    have hy1 : 1 ≤ y ∧ u16sub1 y = y - 1 := by
      unfold u16sub1 at hrow ⊢
      omega
    have hx1 : 1 ≤ x ∧ u16sub1 x = x - 1 := by
      unfold u16sub1 at hcol ⊢
      omega
    obtain ⟨hy1a, hy1b⟩ := hy1
    obtain ⟨hx1a, hx1b⟩ := hx1
    split_ifs at hdraw with hcs
    · injection hdraw with hdraw
      rw [Prod.mk.injEq] at hdraw
      obtain ⟨hs1, hw1⟩ := hdraw
      subst hs1
      subst hw1
      refine ⟨⟨hw, hh, wf_upd2 hwf _ _ _⟩, ?_⟩
      intro i j hi hj
      rw [stateAt_upd2, applyWrite]
      by_cases hij : i = u16sub1 y ∧ j = u16sub1 x
      · obtain ⟨hij1, hij2⟩ := hij
        rw [if_pos ⟨hij1, hij2⟩, if_pos (show (j + 1 = x ∧ i + 1 = y) by
          constructor <;> omega)]
        rw [hij1, hij2, hc]
        simp
      · have hcond : ¬(j + 1 = x ∧ i + 1 = y) := by
          intro hcon
          obtain ⟨h1, h2⟩ := hcon
          exact hij ⟨by omega, by omega⟩
        rw [if_neg hij, if_neg hcond]
        exact hscr i j hi hj
    · injection hdraw with hdraw
      rw [Prod.mk.injEq] at hdraw
      obtain ⟨hs1, hw1⟩ := hdraw
      subst hs1
      subst hw1
      refine ⟨⟨hw, hh, wf_upd2 hwf _ _ _⟩, ?_⟩
      intro i j hi hj
      rw [stateAt_upd2, applyWrite]
      by_cases hij : i = u16sub1 y ∧ j = u16sub1 x
      · obtain ⟨hij1, hij2⟩ := hij
        rw [if_pos ⟨hij1, hij2⟩, if_pos (show (j + 1 = x ∧ i + 1 = y) by
          constructor <;> omega)]
        rw [hij1, hij2, hc]
        simp
      · have hcond : ¬(j + 1 = x ∧ i + 1 = y) := by
          intro hcon
          obtain ⟨h1, h2⟩ := hcon
          exact hij ⟨by omega, by omega⟩
        rw [if_neg hij, if_neg hcond]
        exact hscr i j hi hj
  | playpause hreach ih =>
    obtain ⟨⟨hw, hh, hwf⟩, hscr⟩ := ih
    exact ⟨⟨hw, hh, hwf⟩, hscr⟩

/-! ### Auxiliary lemmas for the claims -/

theorem length_filterMap_eq_filter (f : α → Option β) :
    ∀ l : List α,
      (l.filterMap f).length = (l.filter fun a => (f a).isSome).length := by
  intro l
  induction l with
  | nil => rfl
  | cons a l ih =>
    cases hf : f a <;> simp [List.filterMap_cons, List.filter_cons, hf, ih]

/-- A generation step issues exactly one write per changed cell. -/
theorem writesSpec_length (H W : Nat) (g : Grid) :
    (writesSpec H W g).length = countChanged H W g := by
  rw [writesSpec, countChanged, List.length_flatten, List.map_map]
  refine congrArg List.sum (List.map_congr_left ?_)
  intro p hp
  show (rowWrites H W g p W).length = _
  rw [rowWrites, length_filterMap_eq_filter]
  congr 1
  apply List.filter_congr
  intro j hj
  rw [writeFor]
  split_ifs with h <;> simp [h]

theorem runBatches_cons_quit {s s1 : Simulation} {ws : List Write}
    (evts : List SimulationEvent) (rest : List (List SimulationEvent))
    (h : loopIter s evts = some (s1, ws, true)) :
    runBatches s (evts :: rest) = some (s1, ws) := by
  rw [runBatches, h]
  rfl

/-- A loop iteration whose batch contains `QUIT` reports termination. -/
theorem loopIter_quit_flag {s : Simulation} {evts : List SimulationEvent}
    {out : Simulation × List Write × Bool} (hmem : SimulationEvent.QUIT ∈ evts)
    (h : loopIter s evts = some out) : out.2.2 = true := by
  rw [loopIter] at h
  simp only [Option.bind_eq_bind, Option.pure_def] at h
  have key : ∀ (t : Option (Simulation × List Write)),
      (t.bind fun y => (drain y.1 evts).bind
        fun d => some (d.1, y.2 ++ d.2.1, d.2.2)) = some out → out.2.2 = true := by
    intro t ht
    obtain ⟨p, hp, h2⟩ := Option.bind_eq_some.mp ht
    obtain ⟨r, hr, h3⟩ := Option.bind_eq_some.mp h2
    have hq : r.2.2 = true := drain_quit_flag _ p.1 r hmem hr
    injection h3 with h3
    rw [← h3]
    exact hq
  split_ifs at h
  · exact key _ h
  · exact key _ h


/-! ### The claims -/

/-- Claim C1: whenever a generation step completes, every in-range cell's
new state is the standard Life rule applied to its prior-generation state
and its prior-generation live-neighbour count (underpopulation and
overpopulation kill, a dead cell with exactly three live neighbours is
born, everything else is unchanged). -/
theorem claim_C1 {s s1 : Simulation} {ws : List Write} (hwf : wf s)
    (h : tick s = some (s1, ws)) (i j : Nat)
    (hi : i < s.term_height) (hj : j < s.term_width) :
    stateAt s1.cells i j =
      lifeRule (stateAt s.cells i j)
        (liveNbrs s.term_height s.term_width s.cells i j) := by
  obtain ⟨_, _, _, _, hdone, _, _⟩ := tick_some_spec h
  obtain ⟨c, hc⟩ := getCell_some_of_dims (gridDims_of_wf hwf)
    (sameShape_self _) (a := i) (b := j) hi hj
  have hd := hdone i j hi hj
  rw [stateAt, hd, hc, Option.map_some']
  rfl

theorem claim_C1_witness :
    stateAt (initSim 2 2).cells 0 0 =
      lifeRule (stateAt (initSim 2 2).cells 0 0)
        (liveNbrs 2 2 (initSim 2 2).cells 0 0) :=
  claim_C1 (wf_initSim 2 2)
    (show tick (initSim 2 2) = some (initSim 2 2, []) by decide) 0 0
    (by decide) (by decide)

/-- Claim C2 (amended: dimensions at most 16384): on a dimension `d` that
does not overflow the `i16` modulo helper, the wrapped neighbour indices
are the floored (never negative, always in-range) modulo of `i - 1` and
`i + 1`, so index `-1` maps to `d - 1`. -/
theorem claim_C2 {d : Nat} (hd1 : 1 ≤ d) (hd : d ≤ 16384) (i : Nat)
    (hi : i < d) :
    ((nbrIdx d i (-1) : Int) = ((i : Int) - 1) % (d : Int) ∧
      (nbrIdx d i 1 : Int) = ((i : Int) + 1) % (d : Int)) ∧
    nbrIdx d i (-1) < d ∧ nbrIdx d i 1 < d ∧
    (i = 0 → nbrIdx d i (-1) = d - 1) := by
  have hsub := nbrIdx_sub_one hd hi
  have hadd := nbrIdx_add_one hd hi
  refine ⟨⟨?_, ?_⟩, ?_, ?_, ?_⟩
  · rw [hsub, Int.natCast_mod]
    have he : ((i + (d - 1) : Nat) : Int) = ((i : Int) - 1) + 1 * (d : Int) := by
      omega
    rw [he, Int.add_mul_emod_self]
  · rw [hadd, Int.natCast_mod]
    have he : ((i + 1 : Nat) : Int) = (i : Int) + 1 := by omega
    rw [he]
  · rw [hsub]; exact Nat.mod_lt _ (by omega)
  · rw [hadd]; exact Nat.mod_lt _ (by omega)
  · intro h0
    subst h0
    rw [hsub, Nat.zero_add, Nat.mod_eq_of_lt (by omega)]

theorem claim_C2_witness :
    (((nbrIdx 5 0 (-1) : Int) = ((0 : Int) - 1) % (5 : Int) ∧
      (nbrIdx 5 0 1 : Int) = ((0 : Int) + 1) % (5 : Int)) ∧
    nbrIdx 5 0 (-1) < 5 ∧ nbrIdx 5 0 1 < 5 ∧
    (0 = 0 → nbrIdx 5 0 (-1) = 5 - 1)) :=
  claim_C2 (by decide) (by decide) 0 (by decide)

/-- Claim C2 counterexample: on a 16385-row grid the wrapped lower
neighbour of row 16382 is not `16383` but an index far beyond the grid:
in the `i16` expression `self % n + n` of the `modulo` helper the sum
`16383 + 16385` overflows `i16`, goes negative, and the truncated `%` then
keeps it negative before the cast to `usize`. -/
theorem claim_C2_counterexample : 16385 ≤ nbrIdx 16385 16382 1 := by decide

/-- Claim C3: in every reachable simulation state (any sequence of
generation steps, cell toggles and playback toggles from startup on a
`width x height` terminal, dimensions being `u16` values), every in-range
cell is `ALIVE` exactly when the last character written at its terminal
position `(col + 1, row + 1)` is the live glyph `'o'` (no write yet
meaning blank, hence dead). -/
theorem claim_C3 {width height : Nat} (hW : width ≤ 65535)
    (hH : height ≤ 65535) {s : Simulation} {scr : Screen}
    (h : Reach width height s scr) (i j : Nat) (hi : i < height)
    (hj : j < width) :
    (stateAt s.cells i j = CellState.ALIVE) ↔
      scr (j + 1) (i + 1) = some ('o') :=
  (reach_inv hW hH h).2 i j hi hj

theorem claim_C3_witness :
    (stateAt (initSim 3 3).cells 1 2 = CellState.ALIVE) ↔
      blankScreen (2 + 1) (1 + 1) = some ('o') :=
  claim_C3 (by decide) (by decide) Reach.init 1 2 (by decide) (by decide)

/-- Claim C4: whenever a generation step completes, it emits exactly one
character write per changed cell — as many writes as changed cells, and a
write belongs to the emitted list exactly when it is the glyph of some
in-range cell's new state at that cell's terminal position and that cell
changed; unchanged cells contribute no write. -/
theorem claim_C4 {s s1 : Simulation} {ws : List Write}
    (h : tick s = some (s1, ws)) :
    ws.length = countChanged s.term_height s.term_width s.cells ∧
    ∀ w, w ∈ ws ↔ ∃ i j, i < s.term_height ∧ j < s.term_width ∧
      nextState s.term_height s.term_width s.cells i j ≠ stateAt s.cells i j ∧
      w = ⟨j + 1, i + 1,
        glyph (nextState s.term_height s.term_width s.cells i j)⟩ := by
  obtain ⟨_, _, _, _, _, _, hws⟩ := tick_some_spec h
  subst hws
  refine ⟨writesSpec_length _ _ _, ?_⟩
  intro w
  rw [writesSpec_mem]
  constructor
  · rintro ⟨i, j, hi, hj, hf⟩
    obtain ⟨hne, hwv⟩ := writeFor_pos hf
    exact ⟨i, j, hi, hj, hne, hwv⟩
  · rintro ⟨i, j, hi, hj, hne, hwv⟩
    exact ⟨i, j, hi, hj, by rw [writeFor_some hne, hwv]⟩

theorem claim_C4_witness :
    ([⟨2, 2, (' ')⟩] : List Write).length =
      countChanged 3 3
        (mkSim 3 3 deadPat (prodPat (fun i => i = 1) (fun j => j = 1))).cells :=
  (claim_C4 (show
    tick (mkSim 3 3 deadPat (prodPat (fun i => i = 1) (fun j => j = 1))) =
      some (mkSim 3 3 (prodPat (fun i => i = 1) (fun j => j = 1)) deadPat,
        [⟨2, 2, (' ')⟩]) by decide)).1

/-- Claim C5 (amended: dimensions at most 16384): on a well-formed grid
whose dimensions do not overflow the `i16` neighbour arithmetic, the
generation step always completes, and a toggle command whose coordinates
lie within `[1, W] x [1, H]` always completes; no index computation of
either escapes the grid. -/
theorem claim_C5 {s : Simulation} (hwf : wf s)
    (hH : s.term_height ≤ 16384) (hW : s.term_width ≤ 16384)
    (x y : Nat) (hx1 : 1 ≤ x) (hx : x ≤ s.term_width)
    (hy1 : 1 ≤ y) (hy : y ≤ s.term_height) :
    (∃ out, tick s = some out) ∧ ∃ out2, applyDraw s x y = some out2 := by
  refine ⟨tick_isSome hwf hH hW, ?_⟩
  obtain ⟨c, hc, hd⟩ := applyDraw_spec hwf hx1 hx hy1 hy (by omega) (by omega)
  exact ⟨_, hd⟩

theorem claim_C5_witness :
    (∃ out, tick (initSim 3 3) = some out) ∧
      ∃ out2, applyDraw (initSim 3 3) 2 3 = some out2 :=
  claim_C5 (wf_initSim 3 3) (by decide) (by decide) 2 3 (by decide) (by decide)
    (by decide) (by decide)

/-- Claim C5 counterexample: with 32768 rows the generation step panics:
`32768 as i16` is `-32768`, the truncated remainder keeps the wrapped row
index negative, and the cast to `usize` sends it far out of range, so the
very first cell's neighbour read fails. -/
theorem claim_C5_counterexample :
    tick (mkSim 32768 4 deadPat deadPat) = none :=
  tick_32768_none 4 (by omega) (by omega) deadPat deadPat

/-- Claim C6: once a batch of drained commands reaches a `QUIT`, the
commands after the `QUIT` are never applied (draining the batch equals
draining only up to the `QUIT`), the iteration reports termination, and
the main loop stops: later batches are never processed and no further
generation step runs. -/
theorem claim_C6 {s : Simulation} {out : Simulation × List Write × Bool}
    (pre post : List SimulationEvent) (rest : List (List SimulationEvent))
    (h : loopIter s (pre ++ SimulationEvent.QUIT :: post) = some out) :
    drain s (pre ++ SimulationEvent.QUIT :: post) =
      drain s (pre ++ [SimulationEvent.QUIT]) ∧
    out.2.2 = true ∧
    runBatches s ((pre ++ SimulationEvent.QUIT :: post) :: rest) =
      some (out.1, out.2.1) := by
  have hq : out.2.2 = true := loopIter_quit_flag (by simp) h
  refine ⟨drain_append_quit post pre s, hq, ?_⟩
  obtain ⟨s2, ws2, q⟩ := out
  have hq2 : q = true := hq
  subst hq2
  exact runBatches_cons_quit _ rest h

theorem claim_C6_witness :
    drain (initSim 2 2)
        ([SimulationEvent.PLAYPAUSE] ++ SimulationEvent.QUIT ::
          [SimulationEvent.DRAW 1 1]) =
      drain (initSim 2 2) ([SimulationEvent.PLAYPAUSE] ++
        [SimulationEvent.QUIT]) ∧
    (true : Bool) = true ∧
    runBatches (initSim 2 2)
        (([SimulationEvent.PLAYPAUSE] ++ SimulationEvent.QUIT ::
          [SimulationEvent.DRAW 1 1]) :: [[SimulationEvent.PLAYPAUSE]]) =
      some ({ initSim 2 2 with running := true }, ([] : List Write)) :=
  claim_C6 [SimulationEvent.PLAYPAUSE] [SimulationEvent.DRAW 1 1]
    [[SimulationEvent.PLAYPAUSE]]
    (show loopIter (initSim 2 2)
        ([SimulationEvent.PLAYPAUSE] ++ SimulationEvent.QUIT ::
          [SimulationEvent.DRAW 1 1]) =
      some ({ initSim 2 2 with running := true }, ([] : List Write), true)
      by decide)

/-- Claim C7: a toggle at in-range `u16` coordinates `(x, y)` flips the
cell at `(row y - 1, col x - 1)` — whatever the `running` flag, which it
preserves — and writes the glyph of the new state at `(x, y)`; toggling
twice in succession restores the grid exactly and issues two writes with
the two distinct glyphs (live then dead glyph, or vice versa). -/
theorem claim_C7 {s : Simulation} (hwf : wf s) (x y : Nat)
    (hx1 : 1 ≤ x) (hx : x ≤ s.term_width) (hy1 : 1 ≤ y)
    (hy : y ≤ s.term_height) (hxu : x ≤ 65535) (hyu : y ≤ 65535) :
    ∃ c s1 s2,
      getCell s.cells (y - 1) (x - 1) = some c ∧
      applyDraw s x y = some (s1, ⟨x, y, glyph (flipState c.state)⟩) ∧
      applyDraw s1 x y = some (s2, ⟨x, y, glyph c.state⟩) ∧
      stateAt s1.cells (y - 1) (x - 1) = flipState c.state ∧
      s1.running = s.running ∧ s2.cells = s.cells ∧ s2.running = s.running ∧
      glyph (flipState c.state) ≠ glyph c.state := by
  obtain ⟨c, hc, hd1⟩ := applyDraw_spec hwf hx1 hx hy1 hy hxu hyu
  have hwf1 : wf { s with cells := (upd2 s.cells (y - 1) (x - 1)
      (fun c1 => { c1 with state := flipState c.state })) } :=
    wf_upd2 hwf _ _ _
  obtain ⟨c2, hc2, hd2⟩ := applyDraw_spec hwf1 hx1 hx hy1 hy hxu hyu
  have hgc : getCell (upd2 s.cells (y - 1) (x - 1)
      (fun c1 => { c1 with state := flipState c.state })) (y - 1) (x - 1) =
      some { c with state := flipState c.state } := by
    rw [getCell_upd2, if_pos ⟨rfl, rfl⟩, hc, Option.map_some']
  have hc2e : c2 = { c with state := flipState c.state } := by
    have h2 := hgc.symm.trans hc2
    injection h2 with h2
    exact h2.symm
  subst hc2e
  simp only [flipState_flipState] at hd2
  have hst : stateAt (upd2 s.cells (y - 1) (x - 1)
      (fun c1 => { c1 with state := flipState c.state })) (y - 1) (x - 1) =
      flipState c.state := by
    rw [stateAt, hgc]
  have hback : upd2 (upd2 s.cells (y - 1) (x - 1)
      (fun c1 => { c1 with state := flipState c.state })) (y - 1) (x - 1)
      (fun c1 => { c1 with state := c.state }) = s.cells := by
    rw [upd2_upd2]
    apply upd2_eq_self
    intro cc hcc
    have h3 := hc.symm.trans hcc
    injection h3 with h3
    subst h3
    rfl
  refine ⟨c, _, _, hc, hd1, hd2, hst, rfl, hback, rfl, ?_⟩
  cases hcs : c.state <;> decide

theorem claim_C7_witness :
    ∃ c s1 s2,
      getCell (initSim 3 3).cells (1 - 1) (2 - 1) = some c ∧
      applyDraw (initSim 3 3) 2 1 = some (s1, ⟨2, 1, glyph (flipState c.state)⟩) ∧
      applyDraw s1 2 1 = some (s2, ⟨2, 1, glyph c.state⟩) ∧
      stateAt s1.cells (1 - 1) (2 - 1) = flipState c.state ∧
      s1.running = (initSim 3 3).running ∧ s2.cells = (initSim 3 3).cells ∧
      s2.running = (initSim 3 3).running ∧
      glyph (flipState c.state) ≠ glyph c.state :=
  claim_C7 (wf_initSim 3 3) 2 1 (by decide) (by decide) (by decide) (by decide)
    (by decide) (by decide)

/-- Claim C8 (amended: dimensions at most 16384, blinker at least two
cells from every edge): a horizontal blinker centred at `(r, c)` on an
otherwise dead grid becomes the vertical blinker in one completed
generation step and returns to the horizontal blinker after a second —
every other cell stays dead in both steps. -/
theorem claim_C8 (H W r c : Nat) (fo : Nat → Nat → CellState)
    (hH5 : 5 ≤ H) (hH : H ≤ 16384) (hW5 : 5 ≤ W) (hW : W ≤ 16384)
    (hr1 : 2 ≤ r) (hr2 : r ≤ H - 3) (hc1 : 2 ≤ c) (hc2 : c ≤ W - 3) :
    ∃ ws1 ws2,
      tick (mkSim H W fo (blinkH r c)) =
        some (mkSim H W (blinkH r c) (blinkV r c), ws1) ∧
      tick (mkSim H W (blinkH r c) (blinkV r c)) =
        some (mkSim H W (blinkV r c) (blinkH r c), ws2) := by
  obtain ⟨ws1, h1⟩ := tick_mkSim_eq fo (blinkH r c) (blinkV r c)
    (by omega) (by omega) hH hW
    (fun i j hi hj => blinkH_next H W r c fo hH5 hH hW5 hW hr1 hr2 hc1 hc2 hi hj)
  obtain ⟨ws2, h2⟩ := tick_mkSim_eq (blinkH r c) (blinkV r c) (blinkH r c)
    (by omega) (by omega) hH hW
    (fun i j hi hj =>
      blinkV_next H W r c (blinkH r c) hH5 hH hW5 hW hr1 hr2 hc1 hc2 hi hj)
  exact ⟨ws1, ws2, h1, h2⟩

theorem claim_C8_witness :
    ∃ ws1 ws2,
      tick (mkSim 5 5 deadPat (blinkH 2 2)) =
        some (mkSim 5 5 (blinkH 2 2) (blinkV 2 2), ws1) ∧
      tick (mkSim 5 5 (blinkH 2 2) (blinkV 2 2)) =
        some (mkSim 5 5 (blinkV 2 2) (blinkH 2 2), ws2) :=
  claim_C8 5 5 2 2 deadPat (by decide) (by decide) (by decide) (by decide)
    (by decide) (by decide) (by decide) (by decide)

/-- Claim C8 counterexample: on a 32768-row grid the blinker's generation
step does not happen at all — the `i16` neighbour arithmetic overflows and
the step panics on an out-of-range index. -/
theorem claim_C8_counterexample :
    tick (mkSim 32768 5 deadPat (blinkH 2 2)) = none :=
  tick_32768_none 5 (by omega) (by omega) deadPat (blinkH 2 2)

/-- Claim C9 (amended: dimensions at most 16384, block within bounds): a
2x2 block of live cells on an otherwise dead grid of side at least 4 is
unchanged by any number of generation steps — the block cells stay alive
and every other cell stays dead. -/
theorem claim_C9 (H W r c : Nat) (fo : Nat → Nat → CellState) (k : Nat)
    (hH4 : 4 ≤ H) (hH : H ≤ 16384) (hW4 : 4 ≤ W) (hW : W ≤ 16384)
    (hr2 : r + 1 ≤ H - 1) (hc2 : c + 1 ≤ W - 1) :
    ∃ fo2, tickIter k (mkSim H W fo (blockPat r c)) =
      some (mkSim H W fo2 (blockPat r c)) :=
  block_iter H W r c hH4 hH hW4 hW hr2 hc2 k fo

theorem claim_C9_witness :
    ∃ fo2, tickIter 3 (mkSim 4 4 deadPat (blockPat 1 1)) =
      some (mkSim 4 4 fo2 (blockPat 1 1)) :=
  claim_C9 4 4 1 1 deadPat 3 (by decide) (by decide) (by decide) (by decide)
    (by decide) (by decide)

/-- Claim C9 counterexample: on a 32768-row grid the block's generation
step does not leave the grid unchanged — it panics on an out-of-range
index before completing. -/
theorem claim_C9_counterexample :
    tick (mkSim 32768 4 deadPat (blockPat 1 1)) = none :=
  tick_32768_none 4 (by omega) (by omega) deadPat (blockPat 1 1)

/-- Claim C10: processing a `PLAYPAUSE` command inverts the `running` flag
and changes nothing else: the grid (every cell, both fields), the
dimensions are untouched, no screen write is emitted, and the loop does
not terminate. -/
theorem claim_C10 (s : Simulation) :
    ∃ s1, drain s [SimulationEvent.PLAYPAUSE] =
        some (s1, ([] : List Write), false) ∧
      s1.running = !s.running ∧ s1.cells = s.cells ∧
      s1.term_width = s.term_width ∧ s1.term_height = s.term_height :=
  ⟨{ s with running := !s.running }, rfl, rfl, rfl, rfl, rfl⟩

end LifeRs
